import Mathlib

/-!
Verification of the tgmix message consolidation engine
(`tgmix/message_processor.py`, `tgmix/media_processor.py`).

The Python code is shallowly embedded: dictionaries become association
lists with insert/overwrite semantics, JSON-ish heterogeneous values
become small inductive types, exceptions (KeyError / TypeError raised by
the reaction-merging code) become `Except String`, and filesystem or
external-service behaviour (path canonicalisation, the marking service,
the transcription engine) is supplied through explicit oracle functions.
-/

/-- Association-list lookup, modelling Python `dict.get`. -/
def dget {κ α : Type} [DecidableEq κ] : List (κ × α) → κ → Option α
  | [], _ => none
  | (k', v) :: t, k => if k' = k then some v else dget t k

/-- Association-list insert/overwrite, modelling Python `dict[k] = v`:
the first binding of `k` is replaced in place, otherwise the pair is
appended (Python dicts preserve insertion order). -/
def dset {κ α : Type} [DecidableEq κ] : List (κ × α) → κ → α → List (κ × α)
  | [], k, v => [(k, v)]
  | (k', v') :: t, k, v => if k' = k then (k, v) :: t else (k', v') :: dset t k v

/-- Truthiness filter for optional strings: Python `x or y` treats both
`None` and the empty string as falsy. -/
def truthyOpt : Option String → Option String
  | none => none
  | some s => if s = "" then none else some s

/-- A `text` field of a source message: absent/null, a plain string, or a
list of text entities. -/
inductive TextEntity where
  | str (s : String)
  | obj (text : Option String) (etype : Option String)
        (language : Option String) (href : Option String)
deriving DecidableEq, Repr

inductive TextVal where
  | absent
  | str (s : String)
  | entities (es : List TextEntity)
deriving DecidableEq, Repr

/-- Python truthiness of a `text` value (`None`, `""` and `[]` are falsy). -/
def truthyText : TextVal → Bool
  | .absent => false
  | .str s => !(s = "")
  | .entities es => !es.isEmpty

/-- One raw recent reactor (`{"from": ..., "from_id": ..., "date": ...}`). -/
structure RecentIn where
  from_ : Option String
  from_id : String
  date : String
deriving DecidableEq, Repr

/-- A raw reaction of a source message. -/
structure RawReaction where
  type_ : String
  count : Int
  emoji : Option String
  document_id : Option String
  recent : Option (List RecentIn)
deriving DecidableEq, Repr

/-- A minimised recent reactor, as produced by
`minimise_recent_reactions`. -/
inductive RecentOut where
  | mapped (author_id : String) (date : String)
  | raw (from_ : Option String) (from_id : String) (date : String)
deriving DecidableEq, Repr

/-- A value stored in a processed-reaction dictionary: the reaction
entries built by the code hold strings, integers, Python `None`, or the
minimised `recent` list under dynamically chosen keys. -/
inductive RVal where
  | s (v : String)
  | i (v : Int)
  | null
  | recents (v : List RecentOut)
deriving DecidableEq, Repr

/-- A processed reaction entry is a Python dict with dynamic keys
(the reaction's own type name is used as a key). -/
abbrev Entry := List (String × RVal)

structure SourcePoll where
  question : String
  closed : Bool
  answers : List String
deriving DecidableEq, Repr

/-- A raw exported message.  Fields the code reads with `[]` and that the
data model declares always present (`id`, `type`, `date`) are plain
fields; fields read with `.get` or guarded by `in` are `Option`s.
`forwarded_from` distinguishes an absent key from an explicit null.
Media references are the sub-dict of media-key/value pairs. -/
structure SourceMessage where
  id : Int
  type_ : String
  date : String
  date_unixtime : Option String
  from_ : Option String
  from_id : Option String
  text : TextVal
  reply_to_message_id : Option Int
  forwarded_from : Option (Option String)
  edited : Option String
  author : Option String
  poll : Option SourcePoll
  reactions : Option (List RawReaction)
  media : List (String × String)
deriving DecidableEq, Repr

structure MediaDesc where
  type_ : String
  source_file : String
deriving DecidableEq, Repr

/-- The canonical output unit built by `parse_message_data`. -/
structure ParsedMessage where
  message_id : Int
  timestamp : String
  author_id : Option String
  content_text : Option String
  content_media : Option MediaDesc
  reply_to_message_id : Option Int
  forwarded_from : Option (Option String)
  edited_time : Option String
  post_author : Option String
  poll : Option SourcePoll
  reactions : Option (List Entry)
deriving DecidableEq, Repr

/-- `format_text_entities_to_markdown`: renders one entity.  Entities
with empty text are skipped (contribute the empty string). -/
def fmt_entity : TextEntity → String
  | .str s => s
  | .obj text etype language href =>
    let t := text.getD ""
    if t = "" then ""
    else
      match etype.getD "plain" with
      | "bold" => "**" ++ t ++ "**"
      | "italic" => "*" ++ t ++ "*"
      | "strikethrough" => "~~" ++ t ++ "~~"
      | "code" => "`" ++ t ++ "`"
      | "pre" => "```" ++ language.getD "" ++ "\n" ++ t ++ "\n```"
      | "link" => t
      | "text_link" => "[" ++ t ++ "](" ++ href.getD "#" ++ ")"
      | "mention" => t
      | _ => t

/-- `format_text_entities_to_markdown`: falsy input yields `""`, a plain
string is returned as is, an entity list is rendered part by part and
joined. -/
def format_text_entities_to_markdown : TextVal → String
  | .absent => ""
  | .str s => s
  | .entities es => if es.isEmpty then "" else String.join (es.map fmt_entity)

/-- The media key list local to `message_processor.process_media`. -/
def message_media_keys : List String :=
  ["photo", "video_file", "voice_message", "video_message", "sticker", "file"]

/-- `message_processor.process_media`, pure projection: the returned
descriptor `{"type": media_type, "source_file": msg[media_type]}` for the
first media key present, else `None`.  The on-disk copy performed by the
Python function is I/O-only and not observed by any stitching claim. -/
def process_media (msg : SourceMessage) : Option MediaDesc :=
  match message_media_keys.find? (fun k => (dget msg.media k).isSome) with
  | none => none
  | some k =>
    match dget msg.media k with
    | some v => some ⟨k, v⟩
    | none => none

/-- `minimise_recent_reactions`, inner loop over the raw recent list. -/
def minimise_list (idMap : List (String × String)) : List RecentIn → List RecentOut
  | [] => []
  | r :: rest =>
    (match truthyOpt (dget idMap r.from_id) with
     | some a => RecentOut.mapped a r.date
     | none => RecentOut.raw r.from_ r.from_id r.date) :: minimise_list idMap rest

/-- `minimise_recent_reactions(reactions, id_to_author_map)`: reads
`reactions["recent"]` (KeyError when absent) and minimises each entry. -/
def minimise_recent_reactions (r : RawReaction) (idMap : List (String × String)) :
    Except String (List RecentOut) :=
  match r.recent with
  | none => .error "KeyError: recent"
  | some l => .ok (minimise_list idMap l)

/-- Shape value used by `parse_message_data`:
`reaction.get("emoji") or reaction.get("document_id") or "⭐️"`. -/
def shape_value_parse (r : RawReaction) : String :=
  ((truthyOpt r.emoji).orElse (fun _ => truthyOpt r.document_id)).getD "⭐️"

/-- Shape value used by `combine_reactions`:
`next_reactions.get("emoji") or next_reactions.get("document_id")`
(note: no star fallback here; the result may be Python `None`). -/
def shape_value_combine (r : RawReaction) : Option String :=
  (truthyOpt r.emoji).orElse (fun _ => truthyOpt r.document_id)

/-- The dict literal `{"type": t, "count": c, t: shape}` appended by
`parse_message_data`, with later duplicate keys overwriting earlier ones,
plus the conditional `["recent"]` assignment on the appended entry. -/
def normalize_reaction (idMap : List (String × String)) (r : RawReaction) : Entry :=
  let e : Entry :=
    dset (dset (dset [] "type" (RVal.s r.type_)) "count" (RVal.i r.count))
      r.type_ (RVal.s (shape_value_parse r))
  match r.recent with
  | some l => if l.isEmpty then e else dset e "recent" (RVal.recents (minimise_list idMap l))
  | none => e

/-- `parse_message_data`: builds the canonical message from one source
message using the author map. -/
def parse_message_data (idMap : List (String × String)) (m : SourceMessage) :
    ParsedMessage :=
  { message_id := m.id
    timestamp := m.date
    author_id := m.from_id.bind (fun fid => dget idMap fid)
    content_text :=
      if truthyText m.text then some (format_text_entities_to_markdown m.text) else none
    content_media := process_media m
    reply_to_message_id := m.reply_to_message_id
    forwarded_from := m.forwarded_from
    edited_time := m.edited
    post_author := m.author
    poll := m.poll
    reactions := m.reactions.map (fun rs => rs.map (normalize_reaction idMap)) }

/-- The Python comparison `reaction.get(reaction['type']) != next_shape_value`,
negated: the stored value (missing key and stored `None` both behave as
Python `None`) equals the incoming shape value. -/
def shape_matches (v : Option RVal) (sv : Option String) : Bool :=
  match v, sv with
  | none, none => true
  | some RVal.null, none => true
  | some (RVal.s a), some b => a = b
  | _, _ => false

/-- One step of the matching scan of `combine_reactions`: look up the
entry's own `type` value (KeyError when absent) and use it as a key into
the entry itself; a non-string type value finds no key (an unhashable
list value would raise). -/
def entry_matches (e : Entry) (sv : Option String) : Except String Bool :=
  match dget e "type" with
  | none => .error "KeyError: type"
  | some (RVal.recents _) => .error "TypeError: unhashable type value"
  | some (RVal.s t) => .ok (shape_matches (dget e t) sv)
  | some _ => .ok (shape_matches none sv)

/-- Finds the first entry whose shape matches, returning the entries
before it, the entry, and the entries after it. -/
def find_existing (sv : Option String) :
    List Entry → Except String (Option (List Entry × Entry × List Entry))
  | [] => .ok none
  | e :: rest => do
    let b ← entry_matches e sv
    if b then
      .ok (some ([], e, rest))
    else
      (find_existing sv rest).map (Option.map (fun p => (e :: p.1, p.2.1, p.2.2)))

/-- The dict literal appended by the no-match branch of
`combine_reactions` (shape may be Python `None`). -/
def combine_new_entry (r : RawReaction) : Entry :=
  dset (dset (dset [] "type" (RVal.s r.type_)) "count" (RVal.i r.count))
    r.type_ (match shape_value_combine r with | some s => RVal.s s | none => RVal.null)

/-- The matched branch of `combine_reactions`: for a `"paid"`-typed match
the code binds the string `"⭐️"` and then indexes it (TypeError); else it
adds the counts (`["count"]` must hold an integer) and extends the
entry's `recent` list (`["recent"]` must hold a list, and the incoming
reaction must carry a `recent` key). -/
def combine_matched (idMap : List (String × String)) (r : RawReaction) (e : Entry) :
    Except String Entry := do
  if dget e "type" = some (RVal.s "paid") then .error "TypeError: string indices"
  else
    match dget e "count" with
    | none => .error "KeyError: count"
    | some (RVal.i c) =>
      let e1 := dset e "count" (RVal.i (c + r.count))
      match dget e1 "recent" with
      | none => .error "KeyError: recent"
      | some (RVal.recents l) => do
        let mini ← minimise_recent_reactions r idMap
        .ok (dset e1 "recent" (RVal.recents (l ++ mini)))
      | some _ => .error "AttributeError: extend"
    | some _ => .error "TypeError: count"

/-- The loop of `combine_reactions` over the incoming raw reactions.
`lastRecentTruthy` records whether the **last** raw reaction of the
incoming message carries a non-empty `recent` list: in that case the
no-match branch executes `last_reaction["recent"] = ...` on a list
(TypeError).  A successful match stops the loop early (the function
`return`s instead of continuing). -/
def combine_reactions_go (idMap : List (String × String)) (lastRecentTruthy : Bool) :
    List RawReaction → List Entry → Except String (List Entry)
  | [], es => .ok es
  | r :: rest, es => do
    let sv := shape_value_combine r
    match ← find_existing sv es with
    | some (pre, e, suf) => do
      let e' ← combine_matched idMap r e
      .ok (pre ++ e' :: suf)
    | none =>
      let es' := es ++ [combine_new_entry r]
      if lastRecentTruthy then
        .error "TypeError: list indices"
      else
        combine_reactions_go idMap lastRecentTruthy rest es'

/-- `combine_reactions(next_msg_data, parsed_message, id_to_author_map)`:
no-op when the absorbed message has no `reactions` key; otherwise the
canonical reaction list is created if absent and the incoming raw
reactions are merged in order. -/
def combine_reactions (x : SourceMessage) (cur : Option (List Entry))
    (idMap : List (String × String)) : Except String (Option (List Entry)) :=
  match x.reactions with
  | none => .ok cur
  | some incoming =>
    let lastRecentTruthy : Bool :=
      match incoming.getLast? with
      | some r => match r.recent with | some l => !l.isEmpty | none => false
      | none => false
    (combine_reactions_go idMap lastRecentTruthy incoming (cur.getD [])).map some

/-- The guard of the absorption loop in `combine_messages`: the next
entry shares `from_id`, `date_unixtime` and `forwarded_from` with the
canonical's originating entry and both have truthy text.  The entry's
`type` is NOT checked.  All three field comparisons are Python `.get`
comparisons: for `forwarded_from` that means `Option.join`, which
equates an absent key with an explicit null (both read back as `None`). -/
def absorbCond (message x : SourceMessage) : Prop :=
  x.from_id = message.from_id ∧ x.date_unixtime = message.date_unixtime ∧
  x.forwarded_from.join = message.forwarded_from.join ∧
  truthyText x.text = true ∧ truthyText message.text = true

instance (m x : SourceMessage) : Decidable (absorbCond m x) := by
  unfold absorbCond; infer_instance

/-- The media-attachment step of `combine_messages`: when the canonical
has no media, try to attach media resolved from the absorbed entry. -/
def attach_media (x : SourceMessage) (p : ParsedMessage) : ParsedMessage :=
  match p.content_media with
  | some _ => p
  | none =>
    match process_media x with
    | some d => { p with content_media := some d }
    | none => p

/-- One absorption step of `combine_messages`: append the rendered text
(when non-empty; reading the canonical text raises KeyError were it
absent), attach media when the canonical has none, merge reactions. -/
def absorb_step (idMap : List (String × String)) (x : SourceMessage)
    (p : ParsedMessage) : Except String ParsedMessage := do
  let nextText := format_text_entities_to_markdown x.text
  let p1 ←
    if nextText = "" then
      Except.ok p
    else
      match p.content_text with
      | none => Except.error "KeyError: text"
      | some t => Except.ok { p with content_text := some (t ++ "\n\n" ++ nextText) }
  let p2 := attach_media x p1
  let rs ← combine_reactions x p2.reactions idMap
  .ok { p2 with reactions := rs }

/-- `combine_messages`, recast over the suffix of messages following the
canonical head `m`: absorbs while the guard holds, recording
`alias[absorbed.id] = m.id` after each absorption, and returns the new
canonical message, the alias map, and the number of absorbed entries. -/
def combine_messages (idMap : List (String × String)) (m : SourceMessage) :
    List SourceMessage → ParsedMessage → List (Int × Int) →
    Except String (ParsedMessage × List (Int × Int) × Nat)
  | [], p, am => .ok (p, am, 0)
  | x :: rest, p, am =>
    if absorbCond m x then do
      let p' ← absorb_step idMap x p
      let am' := dset am x.id m.id
      let (p'', am'', k) ← combine_messages idMap m rest p' am'
      .ok (p'', am'', k + 1)
    else
      .ok (p, am, 0)

/-- The main loop of `stitch_messages`: non-`"message"` entries are
skipped; a `"message"` entry is parsed and then greedily absorbs its
successors via `combine_messages`. -/
def stitch_loop (idMap : List (String × String)) :
    List SourceMessage → List (Int × Int) →
    Except String (List ParsedMessage × List (Int × Int))
  | [], am => .ok ([], am)
  | m :: rest, am =>
    if m.type_ = "message" then do
      let p := parse_message_data idMap m
      let (p', am', k) ← combine_messages idMap m rest p am
      let (out, am'') ← stitch_loop idMap (rest.drop k) am'
      .ok (p' :: out, am'')
    else
      stitch_loop idMap rest am
termination_by l _ => l.length
decreasing_by
  · simp [List.length_drop]; omega
  · simp

/-- Structurally recursive decimal rendering (little fuel recursion so
that the kernel can evaluate it); `uCompactId n` models the Python
f-string `f"U{n}"`. -/
def decStrAux : Nat → Nat → List Char
  | 0, _ => []
  | f + 1, n => if n < 10 then [Nat.digitChar n]
                else decStrAux f (n / 10) ++ [Nat.digitChar (n % 10)]

def uCompactId (n : Nat) : String := ⟨'U' :: decStrAux (n + 1) n⟩

structure AuthorInfo where
  name : Option String
  id : String
deriving DecidableEq, Repr

/-- The author-map pass at the top of `stitch_messages`: a falsy
(`None`/empty) `from_id` or one already indexed is skipped, otherwise the
next compact id is allocated. -/
def build_author_step (st : List (String × AuthorInfo) × List (String × String) × Nat)
    (m : SourceMessage) : List (String × AuthorInfo) × List (String × String) × Nat :=
  match truthyOpt m.from_id with
  | none => st
  | some fid =>
    if (dget st.2.1 fid).isSome then st
    else
      (dset st.1 (uCompactId st.2.2) ⟨m.from_, fid⟩,
       dset st.2.1 fid (uCompactId st.2.2), st.2.2 + 1)

def build_author_maps (src : List SourceMessage) :
    List (String × AuthorInfo) × List (String × String) × Nat :=
  src.foldl build_author_step ([], [], 1)

/-- `stitch_messages`: builds the author maps, then runs the stitching
loop, returning the output list, the id alias map and the author map. -/
def stitch_messages (src : List SourceMessage) :
    Except String (List ParsedMessage × List (Int × Int) × List (String × AuthorInfo)) :=
  let maps := build_author_maps src
  (stitch_loop maps.2.1 src []).map (fun r => (r.1, r.2, maps.1))

/-- `fix_reply_ids`, per message: a reply id that is a key of the alias
map is replaced by its aliased canonical id, others are left unchanged. -/
def fix_reply_one (amap : List (Int × Int)) (m : ParsedMessage) : ParsedMessage :=
  match m.reply_to_message_id with
  | none => m
  | some r =>
    match dget amap r with
    | none => m
    | some c => { m with reply_to_message_id := some c }

/-- `fix_reply_ids`: the second pass over the stitched messages. -/
def fix_reply_ids (msgs : List ParsedMessage) (amap : List (Int × Int)) :
    List ParsedMessage :=
  msgs.map (fix_reply_one amap)

/-! ## Media processor (`tgmix/media_processor.py`)

Paths are modelled as component lists; the filesystem (canonicalisation,
directory test, existence test) is an explicit record of oracles, and the
external marking service is an oracle returning one of its outcome
classes.  File writes are collected as an explicit effect list. -/

/-- Filesystem oracle: `canonical` models `Path.resolve(strict=True)`
(`none` covers `FileNotFoundError` and any other resolution error, both
of which the code treats alike), `canonBase` models the non-strict
`base_dir.resolve()`. -/
structure FS where
  canonical : List String → Option (List String)
  canonBase : List String → List String
  isDir : List String → Bool
  pathExists : List String → Bool

/-- Splits a character stream at `/` separators (structural recursion so
that concrete paths evaluate in the kernel). -/
def splitPathChars : List Char → List Char → List String
  | [], acc => [String.mk acc.reverse]
  | c :: rest, acc =>
    if c = '/' then String.mk acc.reverse :: splitPathChars rest []
    else splitPathChars rest (c :: acc)

/-- Path components of a string, empty components dropped. -/
def splitPath (s : String) : List String :=
  (splitPathChars s.data []).filter (fun c => c ≠ "")

def startsWithSlash (s : String) : Bool :=
  match s.data with
  | [] => false
  | c :: _ => c = '/'

/-- `base_dir / filename` in pathlib: an absolute filename replaces the
base. -/
def joinPath (b : List String) (fn : String) : List String :=
  if startsWithSlash fn then splitPath fn else b ++ splitPath fn

def lastName (p : List String) : String := p.getLast?.getD ""

def parentName (p : List String) : String := p.dropLast.getLast?.getD ""

def removeSfx (s suf : String) : String :=
  if s.endsWith suf then s.dropRight suf.length else s

def removePfx (s pre : String) : String :=
  if s.startsWith pre then s.drop pre.length else s

/-- Index of the last `.` in a name, counting from `start`. -/
def lastDotIdx : List Char → Nat → Option Nat
  | [], _ => none
  | c :: rest, i =>
    match lastDotIdx rest (i + 1) with
    | some j => some j
    | none => if c = '.' then some i else none

/-- `Path.with_suffix(".mp4")` applied to a file name: pathlib treats a
name as suffixless when its only dot is leading (dotfiles) or trailing,
in which case the new suffix is appended; otherwise everything from the
last dot on is replaced. -/
def withSuffixMp4Name (n : String) : String :=
  match lastDotIdx n.data 0 with
  | some i =>
    if 0 < i ∧ i < n.data.length - 1 then String.mk (n.data.take i) ++ ".mp4"
    else n ++ ".mp4"
  | none => n ++ ".mp4"

def withSuffixMp4 (p : List String) : List String :=
  p.dropLast ++ [withSuffixMp4Name (lastName p)]

/-- A value under a media key of a raw message dict: a string or some
non-string JSON value. -/
inductive MVal where
  | str (s : String)
  | nonstr
deriving DecidableEq, Repr

/-- A raw message as seen by the media dispatcher: only its media-key
sub-dict is consulted. -/
structure MediaMsg where
  media : List (String × MVal)
deriving Repr

/-- Modelled from the spec: `MEDIA_KEYS` is imported from
`tgmix/consts.py`, which is not part of the provided sources; spec §4.2
fixes the priority-ordered key set (photo, video file, voice message,
round video, sticker, generic file), matching the local key list of
`message_processor.process_media`. -/
def MEDIA_KEYS : List String :=
  ["photo", "video_file", "voice_message", "video_message", "sticker", "file"]

/-- Outcome classes of one call of the external marking service, matching
the exception classes caught by `Media._mark_media` (the three
per-format marking errors, `InvalidMediaError`, `FFmpegProcessError`). -/
inductive MarkOutcome where
  | ok
  | audioErr
  | videoErr
  | imageErr
  | invalidMedia
  | ffmpegErr
deriving DecidableEq, Repr

/-- Observable file-touching effects of the dispatcher: an invocation of
the marking service, or a plain byte copy. -/
inductive Effect where
  | markCall (kind : String) (src dst : List String)
  | copyFile (src dst : List String)
deriving DecidableEq, Repr

/-- The `Media` object state (`__init__`): base and output directories,
the run-wide marking flag, and the `transcribe_media` configuration
truthiness. -/
structure Media where
  base_dir : List String
  media_dir : List String
  do_mark_media : Bool
  transcribe_media : Bool
deriving Repr

/-- `Media.detect`: the first key of `MEDIA_KEYS` present in the message
(by key presence, regardless of the value), else `""`. -/
def Media.detect (msg : MediaMsg) : String :=
  (MEDIA_KEYS.find? (fun k => (dget msg.media k).isSome)).getD ""

/-- `Media.check_path`: strict canonicalisation (any failure is the
`"NF"` skip code), then the containment check against the canonicalised
base (`"OOB"`), then the directory check (`"isdir"`); success returns
`""` with the canonical path. -/
def Media.check_path (self : Media) (fs : FS) (filename : String) :
    String × List String :=
  match fs.canonical (joinPath self.base_dir filename) with
  | none => ("NF", [])
  | some rs =>
    if !(fs.canonBase self.base_dir).isPrefixOf rs then ("OOB", rs)
    else if fs.isDir rs then ("isdir", rs)
    else ("", rs)

/-- `Media.copy_media_file`: copies only when the source still exists at
dispatch time, otherwise performs no write. -/
def Media.copy_media_file (fs : FS) (src dst : List String) : List Effect :=
  if fs.pathExists src then [Effect.copyFile src dst] else []

/-- `Media._mark_media`: invokes the marking function and falls back to a
plain copy on each caught error class; only `FFmpegProcessError`
additionally clears the run-wide marking flag. -/
def Media.mark_media_aux (self : Media) (fs : FS) (kind : String)
    (src dst : List String) (outcome : MarkOutcome) : Media × List Effect :=
  match outcome with
  | .ok => (self, [Effect.markCall kind src dst])
  | .audioErr => (self, Effect.markCall kind src dst :: Media.copy_media_file fs src dst)
  | .videoErr => (self, Effect.markCall kind src dst :: Media.copy_media_file fs src dst)
  | .imageErr => (self, Effect.markCall kind src dst :: Media.copy_media_file fs src dst)
  | .invalidMedia => (self, Effect.markCall kind src dst :: Media.copy_media_file fs src dst)
  | .ffmpegErr =>
    ({ self with do_mark_media := false },
     Effect.markCall kind src dst :: Media.copy_media_file fs src dst)

/-- `Media.mark_media`: dispatch on the parent directory name; voice
messages get the `.mp4` container override, unknown types fall through to
a plain copy. -/
def Media.mark_media (self : Media) (fs : FS) (oracle : List String → MarkOutcome)
    (src dst : List String) : Media × List Effect :=
  let file_type := parentName src
  if file_type = "voice_messages" then
    self.mark_media_aux fs "audio" src (withSuffixMp4 dst) (oracle src)
  else if file_type = "round_video_messages" ∨ file_type = "video_files" then
    self.mark_media_aux fs "video" src dst (oracle src)
  else if file_type = "photos" then
    self.mark_media_aux fs "image" src dst (oracle src)
  else
    (self, Media.copy_media_file fs src dst)

/-- The three placeholder sentinel strings short-circuited by
`Media.process`. -/
def placeholder_strings : List String :=
  ["(File not included. Change data exporting settings to download.)",
   "(File exceeds maximum size. Change data exporting settings to download.)",
   "(File unavailable, please try again later)"]

/-- The `removesuffix`/`removeprefix` chain producing the transcribed
media type label. -/
def transcribedLabel (file_type : String) : String :=
  removePfx (removeSfx (removeSfx file_type "s") "_file") "round_"

/-- The tail of `Media.process` after the transcription-cache check:
mark when the run-wide flag is set, else plain copy; returns the filename
and no text. -/
def Media.process_tail (self : Media) (fs : FS) (oracle : List String → MarkOutcome)
    (resolved prepared : List String) (filename : String) :
    Media × Option String × Option String × List Effect :=
  if self.do_mark_media then
    let r := self.mark_media fs oracle resolved prepared
    (r.1, some filename, none, r.2)
  else
    (self, some filename, none, Media.copy_media_file fs resolved prepared)

/-- `Media.process`: media detection, the non-string / empty-string value
guard, the placeholder short-circuit, path resolution, the transcription
cache short-circuit, and finally marking or plain copy. -/
def Media.process (self : Media) (fs : FS) (oracle : List String → MarkOutcome)
    (msg : MediaMsg) (cache : List (List String × String)) :
    Media × Option String × Option String × List Effect :=
  let media_type := Media.detect msg
  if media_type = "" then (self, none, none, [])
  else
    match dget msg.media media_type with
    | none => (self, none, none, [])
    | some MVal.nonstr => (self, none, none, [])
    | some (MVal.str filename) =>
      if filename = "" then (self, none, none, [])
      else if filename ∈ placeholder_strings then (self, some "B", none, [])
      else
        let chk := self.check_path fs filename
        if chk.1 ≠ "" then (self, some chk.1, none, [])
        else
          let resolved := chk.2
          let prepared := self.media_dir ++ [lastName resolved]
          let file_type := parentName resolved
          let can_be_transcribed := file_type = "voice_messages" ∨
            file_type = "round_video_messages" ∨ file_type = "video_files"
          match (if self.transcribe_media ∧ can_be_transcribed then
                   dget cache resolved else none) with
          | some t =>
            if t ≠ "" then (self, some (transcribedLabel file_type), some t, [])
            else self.process_tail fs oracle resolved prepared filename
          | none => self.process_tail fs oracle resolved prepared filename

/-- Modelled from the spec: the run driver (the caller of
`Media.process`, outside the provided sources) processes the archive's
messages sequentially against one shared `Media` object, so the marking
flag cleared by one item is observed by every later item of the run. -/
def Media.processRun (self : Media) (fs : FS) (oracle : List String → MarkOutcome)
    (cache : List (List String × String)) :
    List MediaMsg → Media × List (Option String × Option String × List Effect)
  | [] => (self, [])
  | m :: ms =>
    let r := self.process fs oracle m cache
    let rest := Media.processRun r.1 fs oracle cache ms
    (rest.1, (r.2.1, r.2.2.1, r.2.2.2) :: rest.2)

/-- The result of `transcribe_worker` for one path, supplied as an
oracle: `some text` models a normal return (the joined, stripped segment
text of the external engine), `none` models an exception escaping the
worker (the worker body has no handler). -/
def pool_imap_collect (oracle : List String → Option String) :
    List (List String) → Except Unit (List (List String × String))
  | [] => .ok []
  | p :: ps =>
    match oracle p with
    | none => .error ()
    | some t => (pool_imap_collect oracle ps).map (fun r => (p, t) :: r)

/-- `Media.batch_transcribe`: empty input returns the empty mapping with
no pool start-up; otherwise the parent iterates `pool.imap_unordered`
results in some completion order (`completionOrder`, a permutation of the
requested paths), accumulating the path-keyed mapping; a worker exception
is re-raised at the parent's iteration point, abandoning the whole batch
(`Except.error`). -/
def batch_transcribe (oracle : List String → Option String)
    (paths completionOrder : List (List String)) :
    Except Unit (List (List String × String)) :=
  if paths.isEmpty then .ok [] else pool_imap_collect oracle completionOrder

/-! ## Association-list lemmas -/

theorem dget_mem {κ α : Type} [DecidableEq κ] :
    ∀ {l : List (κ × α)} {k : κ} {v : α}, dget l k = some v → (k, v) ∈ l := by
  intro l
  induction l with
  | nil => intro k v h; simp [dget] at h
  | cons hd tl ih =>
    intro k v h
    simp only [dget] at h
    by_cases hk : hd.1 = k
    · rcases hd with ⟨k', v'⟩
      simp only at hk
      subst hk
      simp at h
      simp [h]
    · rcases hd with ⟨k', v'⟩
      simp only at hk
      rw [if_neg hk] at h
      exact List.mem_cons_of_mem _ (ih h)

theorem dget_dset_self {κ α : Type} [DecidableEq κ] :
    ∀ (l : List (κ × α)) (k : κ) (v : α), dget (dset l k v) k = some v := by
  intro l
  induction l with
  | nil => intro k v; simp [dset, dget]
  | cons hd tl ih =>
    intro k v
    rcases hd with ⟨k', v'⟩
    simp only [dset]
    by_cases hk : k' = k
    · rw [if_pos hk]; simp [dget]
    · rw [if_neg hk]; simp only [dget, if_neg hk]; exact ih k v

theorem dget_dset_ne {κ α : Type} [DecidableEq κ] :
    ∀ (l : List (κ × α)) (k k' : κ) (v : α), k ≠ k' →
      dget (dset l k v) k' = dget l k' := by
  intro l
  induction l with
  | nil => intro k k' v hne; simp [dset, dget, fun h => hne h]
  | cons hd tl ih =>
    intro k k' v hne
    rcases hd with ⟨k0, v0⟩
    simp only [dset]
    by_cases hk : k0 = k
    · rw [if_pos hk]
      subst hk
      simp [dget, fun h => hne h]
    · rw [if_neg hk]
      simp only [dget]
      by_cases hk' : k0 = k'
      · simp [hk']
      · simp only [if_neg hk']
        exact ih k k' v hne

theorem mem_dset {κ α : Type} [DecidableEq κ] :
    ∀ {l : List (κ × α)} {k : κ} {v : α} {p : κ × α},
      p ∈ dset l k v → p ∈ l ∨ p = (k, v) := by
  intro l
  induction l with
  | nil => intro k v p h; simp [dset] at h; simp [h]
  | cons hd tl ih =>
    intro k v p h
    rcases hd with ⟨k0, v0⟩
    simp only [dset] at h
    by_cases hk : k0 = k
    · rw [if_pos hk] at h
      rcases List.mem_cons.1 h with h | h
      · right; exact h
      · left; exact List.mem_cons_of_mem _ h
    · rw [if_neg hk] at h
      rcases List.mem_cons.1 h with h | h
      · left; simp [h]
      · rcases ih h with h | h
        · left; exact List.mem_cons_of_mem _ h
        · right; exact h

theorem keys_dset_sub {κ α : Type} [DecidableEq κ] :
    ∀ {l : List (κ × α)} {k : κ} {v : α} {a : κ},
      a ∈ (dset l k v).map Prod.fst → a = k ∨ a ∈ l.map Prod.fst := by
  intro l k v a h
  rcases List.mem_map.1 h with ⟨p, hp, hpa⟩
  rcases mem_dset hp with h' | h'
  · right; exact hpa ▸ List.mem_map_of_mem _ h'
  · left; rw [← hpa, h']

theorem dset_of_not_mem_keys {κ α : Type} [DecidableEq κ] :
    ∀ {l : List (κ × α)} {k : κ} (v : α), k ∉ l.map Prod.fst →
      dset l k v = l ++ [(k, v)] := by
  intro l
  induction l with
  | nil => intro k v _; simp [dset]
  | cons hd tl ih =>
    intro k v hk
    rcases hd with ⟨k0, v0⟩
    simp only [List.map_cons, List.mem_cons] at hk
    push_neg at hk
    have hne : k0 ≠ k := fun h => hk.1 h.symm
    simp only [dset, if_neg hne, List.cons_append, List.cons.injEq, true_and]
    exact ih v hk.2

/-! ## Concrete fixtures used by counterexamples and witnesses -/

/-- A minimal source message with the given id, type, author, unixtime
and text; all other fields empty. -/
def mkMsg (i : Int) (ty : String) (fid : Option String) (dut : Option String)
    (tx : TextVal) : SourceMessage :=
  ⟨i, ty, "d", dut, none, fid, tx, none, none, none, none, none, none, []⟩

def cexRun1 : SourceMessage := mkMsg 1 "message" (some "u1") (some "100") (.str "a")
def cexRun2 : SourceMessage := mkMsg 2 "message" (some "u1") (some "100") (.str "b")
def cexRunSvc : SourceMessage := mkMsg 3 "service" (some "u1") (some "100") (.str "c")

/-- C1 counterexample.  The maximal run of consecutive `"message"`-typed
entries with shared `from_id`/`date_unixtime`/`forwarded_from` and
non-empty text is `[cexRun1, cexRun2]`, so the claim demands one
ParsedMessage with text `"a\n\nb"` and message_id 1.  But the absorption
loop never checks the entry type, so the following `"service"` entry with
matching fields is absorbed as well: the single emitted ParsedMessage has
text `"a\n\nb\n\nc"`, and no emitted message has the claimed text. -/
theorem c1_counterexample :
    ((stitch_messages [cexRun1, cexRun2, cexRunSvc]).map
      (fun r => r.1.map (fun p => p.content_text))) = .ok [some "a\n\nb\n\nc"] ∧
    ("a\n\nb\n\nc" ≠ "a\n\nb") := by
  constructor
  · simp [stitch_messages, stitch_loop, build_author_maps, build_author_step, mkMsg,
      cexRun1, cexRun2, cexRunSvc, combine_messages, absorbCond, absorb_step,
      attach_media, parse_message_data, combine_reactions, process_media,
      format_text_entities_to_markdown, truthyText, truthyOpt, uCompactId, dget, dset,
      message_media_keys, decStrAux, Bind.bind, Except.bind, Except.map]
  · decide

def cexPaid2 : RawReaction := ⟨"paid", 2, none, none, none⟩
def cexPaid3 : RawReaction := ⟨"paid", 3, none, none, none⟩
def cexPaidMsg : SourceMessage :=
  { mkMsg 9 "message" (some "u1") (some "100") (.str "z") with reactions := some [cexPaid3] }

/-- C4 counterexample.  A canonical message holds the normalized entry of
a `"paid"` reaction with count 2 (its shape value is the star marker);
merging an incoming `"paid"` reaction with count 3 is claimed to leave
one entry for the pair with count 5.  In the code the incoming shape
value is computed without the star fallback (`None`), so the entries
never match: a second `"paid"` entry is appended and no entry holds
count 5. -/
theorem c4_counterexample :
    combine_reactions cexPaidMsg (some [normalize_reaction [] cexPaid2]) [] =
      .ok (some [[("type", RVal.s "paid"), ("count", RVal.i 2), ("paid", RVal.s "⭐️")],
                 [("type", RVal.s "paid"), ("count", RVal.i 3), ("paid", RVal.null)]]) ∧
    (∀ e ∈ [[("type", RVal.s "paid"), ("count", RVal.i 2), ("paid", RVal.s "⭐️")],
            [("type", RVal.s "paid"), ("count", RVal.i 3), ("paid", RVal.null)]],
      dget e "count" ≠ some (RVal.i 5)) := by
  constructor
  · rfl
  · decide

def cexNullAuthor : SourceMessage := mkMsg 1 "message" none (some "100") (.str "x")

/-- C5 counterexample.  A message whose `from_id` is null is claimed to
trigger allocation of the next compact id; in the code it is skipped
(`if not author_id: continue`), so processing it leaves the author maps
and the counter exactly as if no message had been processed: nothing is
allocated. -/
theorem c5_counterexample :
    build_author_maps [cexNullAuthor] = ([], [], 1) ∧
    build_author_maps [cexNullAuthor] = build_author_maps [] := ⟨rfl, rfl⟩

def cexCustomNoShape : RawReaction := ⟨"custom_emoji", 1, none, none, none⟩
def cexCustomMsg : SourceMessage :=
  { mkMsg 8 "message" (some "u1") (some "100") (.str "y") with
    reactions := some [cexCustomNoShape] }

/-- C6 counterexample.  The claim says only `"paid"`-typed reactions
receive the star marker when both emoji and document id are missing, and
any other type receives no star marker.  Normalization in
`parse_message_data` applies the `or "⭐️"` fallback regardless of the
type: a `"custom_emoji"` reaction without emoji and document id gets the
star marker as its shape value. -/
theorem c6_counterexample :
    (parse_message_data [] cexCustomMsg).reactions =
      some [[("type", RVal.s "custom_emoji"), ("count", RVal.i 1),
             ("custom_emoji", RVal.s "⭐️")]] ∧
    ("custom_emoji" ≠ "paid") := by
  constructor
  · rfl
  · decide

/-- C6 amended: for a raw reaction with neither a truthy emoji nor a
truthy document id (and no non-empty recent list, which would make the
merge raise), normalization stores the star marker as the type-keyed
shape value regardless of the reaction type, while the merge path of
`combine_reactions` uses no star fallback at all: it appends a new entry
whose type-keyed shape value is Python `None`. -/
theorem c6_amended :
    ∀ (idMap : List (String × String)) (r : RawReaction) (x : SourceMessage),
    truthyOpt r.emoji = none → truthyOpt r.document_id = none →
    (r.recent.getD []).isEmpty = true →
    x.reactions = some [r] →
    dget (normalize_reaction idMap r) r.type_ = some (RVal.s "⭐️") ∧
    combine_reactions x (some []) idMap = .ok (some [combine_new_entry r]) ∧
    dget (combine_new_entry r) r.type_ = some RVal.null := by
  intro idMap r x he hd hrec hx
  have hsvp : shape_value_parse r = "⭐️" := by
    simp [shape_value_parse, he, hd, Option.orElse]
  have hsvc : shape_value_combine r = none := by
    simp [shape_value_combine, he, hd, Option.orElse]
  refine ⟨?_, ?_, ?_⟩
  · unfold normalize_reaction
    rcases hr : r.recent with _ | l
    · rw [hsvp]; exact dget_dset_self _ _ _
    · rw [hr] at hrec
      simp only [Option.getD] at hrec
      simp only [hrec, if_true]
      rw [hsvp]; exact dget_dset_self _ _ _
  · unfold combine_reactions
    rw [hx]
    rcases hr : r.recent with _ | l
    · simp [hr, find_existing, combine_reactions_go, Bind.bind, Except.bind, Except.map]
    · rw [hr] at hrec
      simp only [Option.getD] at hrec
      simp [hr, hrec, find_existing, combine_reactions_go, Bind.bind, Except.bind,
        Except.map]
  · unfold combine_new_entry
    rw [hsvc]
    exact dget_dset_self _ _ _

def cexReplyMsg : ParsedMessage := ⟨9, "d", none, none, none, some 1, none, none, none, none, none⟩
def cexChainMap : List (Int × Int) := [(1, 2), (2, 3)]

/-- C7 counterexample.  The claim quantifies over every alias map; for
the map `{1: 2, 2: 3}` (one whose value 2 is itself a key) a message
replying to 1 is rewritten to 2 by the first pass and to 3 by the second
pass, so the second pass is not a no-op. -/
theorem c7_counterexample :
    fix_reply_ids (fix_reply_ids [cexReplyMsg] cexChainMap) cexChainMap ≠
      fix_reply_ids [cexReplyMsg] cexChainMap := by decide

/-- C7 amended: for alias maps none of whose values occurs as a key —
the shape the Stitcher produces over uniquely-numbered sources — the
reply rewrite is idempotent, and a message whose reply id is not a key of
the map is left unchanged by each pass. -/
theorem c7_amended :
    ∀ (msgs : List ParsedMessage) (amap : List (Int × Int)),
    (∀ p ∈ amap, dget amap p.2 = none) →
    fix_reply_ids (fix_reply_ids msgs amap) amap = fix_reply_ids msgs amap ∧
    (∀ (m : ParsedMessage) (r : Int), m.reply_to_message_id = some r →
      dget amap r = none → fix_reply_one amap m = m) := by
  intro msgs amap h
  have hone : ∀ (m : ParsedMessage) (r : Int), m.reply_to_message_id = some r →
      dget amap r = none → fix_reply_one amap m = m := by
    intro m r hm hr
    simp [fix_reply_one, hm, hr]
  refine ⟨?_, hone⟩
  unfold fix_reply_ids
  rw [List.map_map]
  apply List.map_congr_left
  intro m _
  show fix_reply_one amap (fix_reply_one amap m) = fix_reply_one amap m
  rcases hm : m.reply_to_message_id with _ | r
  · have : fix_reply_one amap m = m := by simp [fix_reply_one, hm]
    rw [this, this]
  · rcases hr : dget amap r with _ | c
    · have : fix_reply_one amap m = m := hone m r hm hr
      rw [this, this]
    · have h1 : fix_reply_one amap m =
          { m with reply_to_message_id := some c } := by
        simp [fix_reply_one, hm, hr]
      have hc : dget amap c = none := h (r, c) (dget_mem hr)
      rw [h1]
      exact hone _ c rfl hc

def witReplyMsg : ParsedMessage := ⟨9, "d", none, none, none, some 2, none, none, none, none, none⟩
def witAliasMap : List (Int × Int) := [(2, 1), (3, 1)]

/-- Witness for the amended C7 at a concrete rewrite. -/
theorem c7_witness :
    (∀ p ∈ witAliasMap, dget witAliasMap p.2 = none) ∧
    fix_reply_ids (fix_reply_ids [witReplyMsg] witAliasMap) witAliasMap =
      fix_reply_ids [witReplyMsg] witAliasMap :=
  ⟨by decide, (c7_amended [witReplyMsg] witAliasMap (by decide)).1⟩

def cexT1 : List String := ["voice_messages", "a.ogg"]
def cexT2 : List String := ["voice_messages", "b.ogg"]
def cexTOracle : List String → Option String :=
  fun p => if p = cexT1 then none else some "hello"

/-- C9: the worker body has no exception handler, so a failing item is
re-raised at the parent's `imap_unordered` iteration and the whole batch
is abandoned — under either completion order no mapping is returned at
all, while the same batch without the failing item succeeds.  The claim
(failing item surfaces as an absent/null entry, other items keep their
results) describes the spec's stated intent, which the code does not
implement. -/
theorem c9_batch_aborts_on_failure :
    batch_transcribe cexTOracle [cexT1, cexT2] [cexT1, cexT2] = .error () ∧
    batch_transcribe cexTOracle [cexT1, cexT2] [cexT2, cexT1] = .error () ∧
    batch_transcribe cexTOracle [cexT2] [cexT2] = .ok [(cexT2, "hello")] :=
  ⟨rfl, rfl, rfl⟩

/-- C10: a present media key whose value is not a string, or is the empty
string, makes `Media.process` return the no-media outcome `(None, None)`
before any path resolution, marking or write (no effects, state
unchanged) — exactly the result produced when no media key is present at
all. -/
theorem c10_nonstring_media_value_skipped :
    ∀ (self : Media) (fs : FS) (oracle : List String → MarkOutcome)
      (msg : MediaMsg) (cache : List (List String × String)) (k : String),
    Media.detect msg = k → k ≠ "" →
    (dget msg.media k = some MVal.nonstr ∨ dget msg.media k = some (MVal.str "")) →
    self.process fs oracle msg cache = (self, none, none, []) ∧
    (∀ msg' : MediaMsg, Media.detect msg' = "" →
      self.process fs oracle msg' cache = (self, none, none, [])) := by
  intro self fs oracle msg cache k hdet hk hval
  constructor
  · unfold Media.process
    rw [hdet, if_neg hk]
    rcases hval with hval | hval <;> simp [hval]
  · intro msg' hdet'
    unfold Media.process
    rw [hdet']
    simp

def witMedia : Media := ⟨["base"], ["out"], true, false⟩
def witFS : FS := ⟨fun _ => none, fun p => p, fun _ => false, fun _ => false⟩
def witNonstrMsg : MediaMsg := ⟨[("photo", MVal.nonstr)]⟩

/-- Witness for C10 at a concrete message carrying a non-string photo
value. -/
theorem c10_witness :
    (Media.detect witNonstrMsg = "photo" ∧ dget witNonstrMsg.media "photo" =
      some MVal.nonstr) ∧
    witMedia.process witFS (fun _ => MarkOutcome.ok) witNonstrMsg [] =
      (witMedia, none, none, []) :=
  ⟨⟨rfl, rfl⟩,
   (c10_nonstring_media_value_skipped witMedia witFS (fun _ => MarkOutcome.ok)
     witNonstrMsg [] "photo" rfl (by decide) (Or.inl rfl)).1⟩

/-- C3: a media reference whose canonicalised absolute path is not
contained in the canonicalised base directory makes `check_path` return
the `"OOB"` skip code, and `Media.process` propagates that code with no
media text and an empty effect list: nothing is marked or copied. -/
theorem c3_out_of_bounds_blocked :
    ∀ (self : Media) (fs : FS) (oracle : List String → MarkOutcome)
      (msg : MediaMsg) (cache : List (List String × String))
      (filename : String) (rs : List String),
    dget msg.media (Media.detect msg) = some (MVal.str filename) →
    Media.detect msg ≠ "" →
    filename ≠ "" →
    filename ∉ placeholder_strings →
    fs.canonical (joinPath self.base_dir filename) = some rs →
    (fs.canonBase self.base_dir).isPrefixOf rs = false →
    self.check_path fs filename = ("OOB", rs) ∧
    self.process fs oracle msg cache = (self, some "OOB", none, []) := by
  intro self fs oracle msg cache filename rs hval hdet hfn hph hcanon hpre
  have hchk : self.check_path fs filename = ("OOB", rs) := by
    unfold Media.check_path
    rw [hcanon]
    simp [hpre]
  refine ⟨hchk, ?_⟩
  unfold Media.process
  simp only [hval, if_neg hdet]
  simp [hfn, hph, hchk]

def witOOBfs : FS :=
  ⟨fun p => if p = ["home", "..", "etc", "pw"] then some ["etc", "pw"] else none,
   fun _ => ["home"], fun _ => false, fun _ => true⟩
def witOOBMedia : Media := ⟨["home"], ["out"], true, false⟩
def witOOBMsg : MediaMsg := ⟨[("photo", MVal.str "../etc/pw")]⟩

/-- Witness for C3: a `../` reference canonicalising outside the base. -/
theorem c3_witness :
    (witOOBfs.canonical (joinPath witOOBMedia.base_dir "../etc/pw") =
        some ["etc", "pw"] ∧
      (witOOBfs.canonBase witOOBMedia.base_dir).isPrefixOf ["etc", "pw"] = false) ∧
    witOOBMedia.check_path witOOBfs "../etc/pw" = ("OOB", ["etc", "pw"]) ∧
    witOOBMedia.process witOOBfs (fun _ => MarkOutcome.ok) witOOBMsg [] =
      (witOOBMedia, some "OOB", none, []) :=
  ⟨⟨by decide, by decide⟩,
   c3_out_of_bounds_blocked witOOBMedia witOOBfs (fun _ => MarkOutcome.ok)
     witOOBMsg [] "../etc/pw" ["etc", "pw"] rfl (by decide) (by decide) (by decide)
     (by decide) (by decide)⟩

def Effect.isMark : Effect → Bool
  | .markCall _ _ _ => true
  | .copyFile _ _ => false

/-- With the run-wide marking flag cleared, `Media.process` never touches
the flag and never produces a marking-service invocation. -/
theorem process_with_marking_disabled :
    ∀ (self : Media) (fs : FS) (oracle : List String → MarkOutcome)
      (msg : MediaMsg) (cache : List (List String × String)),
    self.do_mark_media = false →
    (self.process fs oracle msg cache).1 = self ∧
    (∀ eff ∈ (self.process fs oracle msg cache).2.2.2, eff.isMark = false) := by
  intro self fs oracle msg cache hoff
  unfold Media.process Media.process_tail
  simp only [hoff, Bool.false_eq_true, if_false]
  constructor
  · repeat' split
    all_goals rfl
  · repeat' split
    all_goals intro eff heff
    all_goals try (unfold Media.copy_media_file at heff; split at heff)
    all_goals simp_all [Effect.isMark]

/-- C8: each of the three per-item marking failure classes falls back to
a plain copy with the marking state untouched; the engine-unavailable
class (`FFmpegProcessError`) additionally clears the run-wide flag and
then copies; and once the flag is cleared, a whole run of later items
never invokes the marking service and the flag stays cleared. -/
theorem c8_marking_failures_nonfatal :
    ∀ (self : Media) (fs : FS) (kind : String) (src dst : List String),
    (Media.mark_media_aux self fs kind src dst .audioErr =
      (self, Effect.markCall kind src dst :: Media.copy_media_file fs src dst)) ∧
    (Media.mark_media_aux self fs kind src dst .videoErr =
      (self, Effect.markCall kind src dst :: Media.copy_media_file fs src dst)) ∧
    (Media.mark_media_aux self fs kind src dst .imageErr =
      (self, Effect.markCall kind src dst :: Media.copy_media_file fs src dst)) ∧
    (Media.mark_media_aux self fs kind src dst .invalidMedia =
      (self, Effect.markCall kind src dst :: Media.copy_media_file fs src dst)) ∧
    (Media.mark_media_aux self fs kind src dst .ffmpegErr =
      ({ self with do_mark_media := false },
       Effect.markCall kind src dst :: Media.copy_media_file fs src dst)) ∧
    (∀ (oracle : List String → MarkOutcome) (cache : List (List String × String))
       (items : List MediaMsg),
      self.do_mark_media = false →
      (Media.processRun self fs oracle cache items).1.do_mark_media = false ∧
      (∀ e ∈ (Media.processRun self fs oracle cache items).2, ∀ eff ∈ e.2.2,
        eff.isMark = false)) := by
  intro self fs kind src dst
  refine ⟨rfl, rfl, rfl, rfl, rfl, ?_⟩
  intro oracle cache items
  induction items generalizing self with
  | nil => intro hoff; simpa [Media.processRun] using hoff
  | cons m ms ih =>
    intro hoff
    have hstep := process_with_marking_disabled self fs oracle m cache hoff
    have hoff' : (self.process fs oracle m cache).1.do_mark_media = false := by
      rw [hstep.1]; exact hoff
    have hrest := ih ((self.process fs oracle m cache).1) hoff'
    constructor
    · simpa [Media.processRun] using hrest.1
    · intro e he eff heff
      simp only [Media.processRun, List.mem_cons] at he
      rcases he with he | he
      · subst he
        exact hstep.2 eff heff
      · exact hrest.2 e he eff heff

def witMediaOff : Media := ⟨["b"], ["o"], false, false⟩
def witRunMsgs : List MediaMsg := [⟨[("photo", MVal.str "x")]⟩, ⟨[]⟩]

/-- Witness for C8: a run processed with the marking flag cleared touches
no item with the marking service. -/
theorem c8_witness :
    (witMediaOff.do_mark_media = false) ∧
    ((Media.processRun witMediaOff witFS (fun _ => MarkOutcome.ok) [] witRunMsgs).1.do_mark_media
        = false ∧
      (∀ e ∈ (Media.processRun witMediaOff witFS (fun _ => MarkOutcome.ok) [] witRunMsgs).2,
        ∀ eff ∈ e.2.2, eff.isMark = false)) :=
  ⟨rfl,
   (c8_marking_failures_nonfatal witMediaOff witFS "audio" [] []).2.2.2.2.2
     (fun _ => MarkOutcome.ok) [] witRunMsgs rfl⟩

/-! ## Reaction-merge lemmas for the amended C4 -/

theorem find_existing_none :
    ∀ (L : List Entry) (sv : Option String),
    (∀ f ∈ L, entry_matches f sv = .ok false) →
    find_existing sv L = .ok none := by
  intro L
  induction L with
  | nil => intro sv _; rfl
  | cons e rest ih =>
    intro sv h
    have he := h e (List.mem_cons_self e rest)
    have hr := ih sv (fun f hf => h f (List.mem_cons_of_mem e hf))
    simp [find_existing, he, hr, Bind.bind, Except.bind, Except.map]

theorem find_existing_first :
    ∀ (L1 : List Entry) (e : Entry) (L2 : List Entry) (sv : Option String),
    (∀ f ∈ L1, entry_matches f sv = .ok false) →
    entry_matches e sv = .ok true →
    find_existing sv (L1 ++ e :: L2) = .ok (some (L1, e, L2)) := by
  intro L1
  induction L1 with
  | nil =>
    intro e L2 sv _ he
    simp [find_existing, he, Bind.bind, Except.bind]
  | cons f rest ih =>
    intro e L2 sv h he
    have hf := h f (List.mem_cons_self f rest)
    have hr := ih e L2 sv (fun g hg => h g (List.mem_cons_of_mem f hg)) he
    simp [find_existing, hf, hr, Bind.bind, Except.bind, Except.map]

/-- C4 amended: matching compares only the incoming shape value (emoji,
else document id, with no star fallback) against each canonical entry's
own-type-keyed shape value — the incoming reaction's type is not
consulted.  On the first match, when the matched entry's stored type is
not `"paid"` and both the entry and the incoming reaction carry recent
lists, the counts are added into that single entry in place, the
incoming minimized recent reactors are appended to it, and processing of
the incoming reaction list stops.  An incoming reaction matching no
entry is appended as a new normalized entry without a recent list,
provided the last incoming raw reaction has no non-empty recent list
(which would raise a TypeError instead). -/
theorem c4_amended :
    ∀ (idMap : List (String × String)) (r : RawReaction) (x : SourceMessage),
    x.reactions = some [r] →
    ((∀ (L1 L2 : List Entry) (e : Entry) (c : Int) (rc : List RecentOut)
        (rs : List RecentIn),
      r.recent = some rs →
      (∀ f ∈ L1, entry_matches f (shape_value_combine r) = .ok false) →
      entry_matches e (shape_value_combine r) = .ok true →
      dget e "type" ≠ some (RVal.s "paid") →
      dget e "count" = some (RVal.i c) →
      dget e "recent" = some (RVal.recents rc) →
      combine_reactions x (some (L1 ++ e :: L2)) idMap =
        .ok (some (L1 ++ (dset (dset e "count" (RVal.i (c + r.count))) "recent"
          (RVal.recents (rc ++ minimise_list idMap rs))) :: L2))) ∧
     (∀ (L : List Entry),
      (r.recent.getD []).isEmpty = true →
      (∀ f ∈ L, entry_matches f (shape_value_combine r) = .ok false) →
      combine_reactions x (some L) idMap = .ok (some (L ++ [combine_new_entry r])))) := by
  intro idMap r x hx
  constructor
  · intro L1 L2 e c rc rs hrs hL1 he hpaid hc hrc
    unfold combine_reactions
    rw [hx]
    have hfind := find_existing_first L1 e L2 (shape_value_combine r) hL1 he
    have hmatched : combine_matched idMap r e =
        .ok (dset (dset e "count" (RVal.i (c + r.count))) "recent"
          (RVal.recents (rc ++ minimise_list idMap rs))) := by
      unfold combine_matched
      rw [if_neg hpaid]
      have hrc' : dget (dset e "count" (RVal.i (c + r.count))) "recent" =
          some (RVal.recents rc) := by
        rw [dget_dset_ne e "count" "recent" _ (by decide)]
        exact hrc
      simp only [hc]
      simp only [hrc']
      simp [minimise_recent_reactions, hrs, Bind.bind, Except.bind]
    simp [combine_reactions_go, hfind, hmatched, Bind.bind, Except.bind, Except.map]
  · intro L hempty hL
    unfold combine_reactions
    rw [hx]
    have hfind := find_existing_none L (shape_value_combine r) hL
    have hlast : (match ([r] : List RawReaction).getLast? with
        | some rr => (match rr.recent with | some l => !l.isEmpty | none => false)
        | none => false) = false := by
      show (match r.recent with | some l => !l.isEmpty | none => false) = false
      rcases hr : r.recent with _ | l
      · rfl
      · rw [hr] at hempty
        simp only [Option.getD] at hempty
        simp [hempty]
    simp only [hlast]
    simp [combine_reactions_go, hfind, Bind.bind, Except.bind, Except.map]

def witEmojiEntry : Entry :=
  [("type", RVal.s "emoji"), ("count", RVal.i 2), ("emoji", RVal.s "👍"),
   ("recent", RVal.recents [RecentOut.mapped "U1" "t0"])]
def witIncomingReaction : RawReaction :=
  ⟨"emoji", 3, some "👍", none, some [⟨some "Bob", "u9", "t1"⟩]⟩
def witIncomingMsg : SourceMessage :=
  { mkMsg 7 "message" (some "u1") (some "100") (.str "w") with
    reactions := some [witIncomingReaction] }

/-- Witness for the amended C4: merging 👍 count 3 into an existing 👍
entry with count 2 yields a single entry with count 5 and the incoming
minimized reactor appended. -/
theorem c4_witness :
    (entry_matches witEmojiEntry (shape_value_combine witIncomingReaction) = .ok true) ∧
    combine_reactions witIncomingMsg (some [witEmojiEntry]) [] =
      .ok (some [[("type", RVal.s "emoji"), ("count", RVal.i 5), ("emoji", RVal.s "👍"),
        ("recent", RVal.recents [RecentOut.mapped "U1" "t0",
          RecentOut.raw (some "Bob") "u9" "t1"])]]) :=
  ⟨rfl,
   (c4_amended [] witIncomingReaction witIncomingMsg rfl).1 [] [] witEmojiEntry 2
     [RecentOut.mapped "U1" "t0"] [⟨some "Bob", "u9", "t1"⟩] rfl
     (by intro f hf; simp at hf) rfl (by decide) rfl rfl⟩

/-! ## Decimal rendering: correctness and injectivity of `uCompactId` -/

def decVal (l : List Char) : Nat :=
  l.foldl (fun acc c => 10 * acc + (c.toNat - 48)) 0

theorem decVal_append (l : List Char) (c : Char) :
    decVal (l ++ [c]) = 10 * decVal l + (c.toNat - 48) := by
  simp [decVal, List.foldl_append]

theorem digitChar_toNat : ∀ d : Nat, d < 10 → (Nat.digitChar d).toNat - 48 = d := by
  decide

theorem decVal_decStrAux : ∀ (f n : Nat), n < 10 ^ f → decVal (decStrAux f n) = n := by
  intro f
  induction f with
  | zero =>
    intro n h
    simp only [pow_zero, Nat.lt_one_iff] at h
    subst h
    rfl
  | succ f ih =>
    intro n h
    unfold decStrAux
    by_cases hn : n < 10
    · simp only [if_pos hn]
      have : decVal [Nat.digitChar n] = 10 * 0 + ((Nat.digitChar n).toNat - 48) := rfl
      rw [this, digitChar_toNat n hn]
      omega
    · simp only [if_neg hn]
      have hdiv : n / 10 < 10 ^ f := by
        rw [Nat.div_lt_iff_lt_mul (by norm_num : (0 : ℕ) < 10)]
        calc n < 10 ^ (f + 1) := h
        _ = 10 ^ f * 10 := by rw [pow_succ]
      rw [decVal_append, ih (n / 10) hdiv,
        digitChar_toNat (n % 10) (Nat.mod_lt _ (by norm_num))]
      omega

theorem uCompactId_injective : Function.Injective uCompactId := by
  intro m n h
  unfold uCompactId at h
  have hdata : ('U' :: decStrAux (m + 1) m) = ('U' :: decStrAux (n + 1) n) :=
    congrArg String.data h
  have h2 : decStrAux (m + 1) m = decStrAux (n + 1) n := by
    injection hdata
  have hmb : m < 10 ^ (m + 1) := by
    calc m < 2 ^ m := Nat.lt_two_pow m
    _ ≤ 10 ^ m := Nat.pow_le_pow_left (by norm_num) m
    _ ≤ 10 ^ (m + 1) := Nat.pow_le_pow_right (by norm_num) (Nat.le_succ m)
  have hnb : n < 10 ^ (n + 1) := by
    calc n < 2 ^ n := Nat.lt_two_pow n
    _ ≤ 10 ^ n := Nat.pow_le_pow_left (by norm_num) n
    _ ≤ 10 ^ (n + 1) := Nat.pow_le_pow_right (by norm_num) (Nat.le_succ n)
  calc m = decVal (decStrAux (m + 1) m) := (decVal_decStrAux (m + 1) m hmb).symm
  _ = decVal (decStrAux (n + 1) n) := by rw [h2]
  _ = n := decVal_decStrAux (n + 1) n hnb

theorem dget_eq_none_iff {κ α : Type} [DecidableEq κ] :
    ∀ (l : List (κ × α)) (k : κ), dget l k = none ↔ k ∉ l.map Prod.fst := by
  intro l
  induction l with
  | nil => intro k; simp [dget]
  | cons hd tl ih =>
    intro k
    rcases hd with ⟨k0, v0⟩
    by_cases hk : k0 = k
    · subst hk
      simp [dget]
    · simp only [dget, if_neg hk, List.map_cons, List.mem_cons]
      rw [ih k]
      constructor
      · intro h hmem
        rcases hmem with hmem | hmem
        · exact hk hmem.symm
        · exact h hmem
      · intro h hmem
        exact h (Or.inr hmem)

theorem dget_append {κ α : Type} [DecidableEq κ] :
    ∀ (l1 l2 : List (κ × α)) (k : κ),
    dget (l1 ++ l2) k = (dget l1 k).or (dget l2 k) := by
  intro l1
  induction l1 with
  | nil => intro l2 k; simp [dget]
  | cons hd tl ih =>
    intro l2 k
    rcases hd with ⟨k0, v0⟩
    by_cases hk : k0 = k
    · subst hk
      simp [dget]
    · simp only [List.cons_append, dget, if_neg hk]
      exact ih l2 k

/-- The author-map fold maintains: distinct keys, values `U1..Un` in
allocation order, and counter = allocated + 1; and a from_id is indexed
after the fold iff it was indexed before or occurs truthily in the
processed messages. -/
theorem build_author_fold :
    ∀ (src : List SourceMessage)
      (st : List (String × AuthorInfo) × List (String × String) × Nat),
    (st.2.1.map Prod.fst).Nodup →
    st.2.1.map Prod.snd = (List.range' 1 st.2.1.length).map uCompactId →
    st.2.2 = st.2.1.length + 1 →
    (((src.foldl build_author_step st).2.1.map Prod.fst).Nodup ∧
     (src.foldl build_author_step st).2.1.map Prod.snd =
       (List.range' 1 (src.foldl build_author_step st).2.1.length).map uCompactId ∧
     (src.foldl build_author_step st).2.2 =
       (src.foldl build_author_step st).2.1.length + 1 ∧
     (∀ fid : String, (dget (src.foldl build_author_step st).2.1 fid).isSome ↔
       ((dget st.2.1 fid).isSome ∨ ∃ m ∈ src, truthyOpt m.from_id = some fid))) := by
  intro src
  induction src with
  | nil =>
    intro st h1 h2 h3
    refine ⟨h1, h2, h3, ?_⟩
    intro fid
    simp
  | cons m rest ih =>
    intro st h1 h2 h3
    rcases hstep : truthyOpt m.from_id with _ | fid0
    · have hst : build_author_step st m = st := by
        unfold build_author_step
        rw [hstep]
      rw [List.foldl_cons, hst]
      obtain ⟨g1, g2, g3, g4⟩ := ih st h1 h2 h3
      refine ⟨g1, g2, g3, ?_⟩
      intro fid
      rw [g4 fid]
      constructor
      · intro h
        rcases h with h | h
        · exact Or.inl h
        · exact Or.inr ⟨h.choose, List.mem_cons_of_mem m h.choose_spec.1, h.choose_spec.2⟩
      · intro h
        rcases h with h | ⟨m', hm', hfid⟩
        · exact Or.inl h
        · rcases List.mem_cons.1 hm' with hh | hh
          · subst hh
            rw [hstep] at hfid
            exact absurd hfid (by simp)
          · exact Or.inr ⟨m', hh, hfid⟩
    · by_cases hin : (dget st.2.1 fid0).isSome
      · have hst : build_author_step st m = st := by
          unfold build_author_step
          simp only [hstep]
          rw [if_pos hin]
        rw [List.foldl_cons, hst]
        obtain ⟨g1, g2, g3, g4⟩ := ih st h1 h2 h3
        refine ⟨g1, g2, g3, ?_⟩
        intro fid
        rw [g4 fid]
        constructor
        · intro h
          rcases h with h | h
          · exact Or.inl h
          · exact Or.inr ⟨h.choose, List.mem_cons_of_mem m h.choose_spec.1, h.choose_spec.2⟩
        · intro h
          rcases h with h | ⟨m', hm', hfid⟩
          · exact Or.inl h
          · rcases List.mem_cons.1 hm' with hh | hh
            · subst hh
              rw [hstep] at hfid
              have : fid = fid0 := by
                injection hfid.symm
              subst this
              exact Or.inl hin
            · exact Or.inr ⟨m', hh, hfid⟩
      · have hnot : fid0 ∉ st.2.1.map Prod.fst := by
          rw [← dget_eq_none_iff]
          rcases h : dget st.2.1 fid0 with _ | v
          · rfl
          · rw [h] at hin; simp at hin
        have hst : build_author_step st m =
            (dset st.1 (uCompactId st.2.2) ⟨m.from_, fid0⟩,
             dset st.2.1 fid0 (uCompactId st.2.2), st.2.2 + 1) := by
          unfold build_author_step
          simp only [hstep]
          rw [if_neg hin]
        have hidm : dset st.2.1 fid0 (uCompactId st.2.2) =
            st.2.1 ++ [(fid0, uCompactId st.2.2)] :=
          dset_of_not_mem_keys _ hnot
        rw [List.foldl_cons, hst]
        have hlen : (st.2.1 ++ [(fid0, uCompactId st.2.2)]).length = st.2.1.length + 1 := by
          simp
        have i1 : ((st.2.1 ++ [(fid0, uCompactId st.2.2)]).map Prod.fst).Nodup := by
          rw [List.map_append]
          rw [List.nodup_append]
          refine ⟨h1, by simp, ?_⟩
          intro a ha hb
          simp only [List.map_cons, List.map_nil, List.mem_singleton] at hb
          subst hb
          exact hnot ha
        have i2 : (st.2.1 ++ [(fid0, uCompactId st.2.2)]).map Prod.snd =
            (List.range' 1 ((st.2.1 ++ [(fid0, uCompactId st.2.2)]).length)).map
              uCompactId := by
          rw [hlen, List.map_append, h2, List.range'_concat]
          simp only [List.map_append, List.map_cons, List.map_nil]
          rw [h3]
          have harith : 1 + 1 * st.2.1.length = st.2.1.length + 1 := by omega
          rw [harith]
        have i3 : st.2.2 + 1 = (st.2.1 ++ [(fid0, uCompactId st.2.2)]).length + 1 := by
          rw [hlen, h3]
        obtain ⟨g1, g2, g3, g4⟩ :=
          ih (dset st.1 (uCompactId st.2.2) ⟨m.from_, fid0⟩,
              dset st.2.1 fid0 (uCompactId st.2.2), st.2.2 + 1)
            (by simpa [hidm] using i1) (by simpa [hidm] using i2)
            (by simpa [hidm] using i3)
        refine ⟨g1, g2, g3, ?_⟩
        intro fid
        rw [g4 fid]
        simp only [hidm]
        rw [dget_append]
        constructor
        · intro h
          rcases h with h | h
          · rcases hor : dget st.2.1 fid with _ | v
            · simp only [hor, Option.or] at h
              by_cases hfe : fid0 = fid
              · subst hfe
                exact Or.inr ⟨m, List.mem_cons_self m rest, hstep⟩
              · rw [show dget [(fid0, uCompactId st.2.2)] fid = none by
                  simp [dget, hfe]] at h
                simp at h
            · exact Or.inl rfl
          · exact Or.inr ⟨h.choose, List.mem_cons_of_mem m h.choose_spec.1, h.choose_spec.2⟩
        · intro h
          rcases h with h | ⟨m', hm', hfid⟩
          · left
            rcases hor : dget st.2.1 fid with _ | v
            · simp only [hor, Option.isSome_none] at h
              exact absurd h (by simp)
            · rfl
          · rcases List.mem_cons.1 hm' with hh | hh
            · subst hh
              rw [hstep] at hfid
              have hfe : fid0 = fid := by injection hfid
              subst hfe
              left
              rcases hor : dget st.2.1 fid0 with _ | v
              · simp [Option.or, dget]
              · rfl
            · exact Or.inr ⟨m', hh, hfid⟩

/-- C5 amended: during AuthorMap construction, a non-null non-empty
`from_id` on its first occurrence triggers allocation of the next
compact id; a null (or empty) `from_id` allocates nothing.  A `from_id`
is indexed iff it occurs truthily in the source; keys are distinct (each
distinct `from_id` maps to exactly one compact id); the allocated
compact ids are exactly `U1, U2, ...` in first-seen order and are never
reused; and the counter always equals the number of allocations plus
one, so skipped entries consume no id. -/
theorem c5_amended :
    ∀ (src : List SourceMessage),
    ((build_author_maps src).2.1.map Prod.fst).Nodup ∧
    ((build_author_maps src).2.1.map Prod.snd =
      (List.range' 1 (build_author_maps src).2.1.length).map uCompactId) ∧
    ((build_author_maps src).2.1.map Prod.snd).Nodup ∧
    ((build_author_maps src).2.2 = (build_author_maps src).2.1.length + 1) ∧
    (∀ fid : String, (dget (build_author_maps src).2.1 fid).isSome ↔
      ∃ m ∈ src, truthyOpt m.from_id = some fid) := by
  intro src
  unfold build_author_maps
  obtain ⟨g1, g2, g3, g4⟩ :=
    build_author_fold src ([], [], 1) (by simp) (by simp [List.range']) (by simp)
  refine ⟨g1, g2, ?_, g3, ?_⟩
  · rw [g2]
    exact (List.nodup_range' _ _).map uCompactId_injective
  · intro fid
    rw [g4 fid]
    simp [dget]

/-! ## Stitching invariants -/

theorem attach_media_fields (x : SourceMessage) (p : ParsedMessage) :
    (attach_media x p).message_id = p.message_id ∧
    (attach_media x p).content_text = p.content_text := by
  unfold attach_media
  rcases p.content_media with _ | d
  · rcases process_media x with _ | d'
    · exact ⟨rfl, rfl⟩
    · exact ⟨rfl, rfl⟩
  · exact ⟨rfl, rfl⟩

theorem absorb_step_spec :
    ∀ (idMap : List (String × String)) (x : SourceMessage) (p q : ParsedMessage),
    absorb_step idMap x p = .ok q →
    q.message_id = p.message_id ∧
    (∀ t : String, p.content_text = some t →
      format_text_entities_to_markdown x.text ≠ "" →
      q.content_text = some (t ++ "\n\n" ++ format_text_entities_to_markdown x.text)) := by
  intro idMap x p q h
  unfold absorb_step at h
  by_cases hrt : format_text_entities_to_markdown x.text = ""
  · rw [if_pos hrt] at h
    simp only [Bind.bind, Except.bind] at h
    rcases hcr : combine_reactions x (attach_media x p).reactions idMap with e | rs
    · rw [hcr] at h; simp at h
    · rw [hcr] at h
      simp only [Except.ok.injEq] at h
      subst h
      refine ⟨(attach_media_fields x p).1, ?_⟩
      intro t _ hne
      exact absurd hrt hne
  · rw [if_neg hrt] at h
    rcases hpt : p.content_text with _ | t0
    · rw [hpt] at h
      simp [Bind.bind, Except.bind] at h
    · rw [hpt] at h
      simp only [Bind.bind, Except.bind] at h
      set pm : ParsedMessage :=
        { p with
          content_text := some (t0 ++ "\n\n" ++ format_text_entities_to_markdown x.text) }
        with hpm
      rcases hcr : combine_reactions x (attach_media x pm).reactions idMap with e | rs
      · rw [hcr] at h; simp at h
      · rw [hcr] at h
        simp only [Except.ok.injEq] at h
        subst h
        constructor
        · exact (attach_media_fields x _).1
        · intro t ht _
          have hte : t0 = t := by injection ht
          subst hte
          show (attach_media x pm).content_text =
            some (t0 ++ "\n\n" ++ format_text_entities_to_markdown x.text)
          rw [(attach_media_fields x pm).2]

theorem combine_messages_spec (idMap : List (String × String)) (m : SourceMessage) :
    ∀ (xs : List SourceMessage) (p : ParsedMessage) (am : List (Int × Int))
      (p' : ParsedMessage) (am' : List (Int × Int)) (k : Nat),
    combine_messages idMap m xs p am = .ok (p', am', k) →
    p'.message_id = p.message_id ∧
    k ≤ xs.length ∧
    (∀ x ∈ xs.take k, absorbCond m x) ∧
    (∀ pr : Int × Int, pr ∈ am' → pr ∈ am ∨ pr.2 = m.id) ∧
    (∀ a : Int, a ∈ am'.map Prod.fst →
      a ∈ am.map Prod.fst ∨ a ∈ (xs.take k).map (fun x => x.id)) ∧
    ((am.map Prod.fst).Nodup → (∀ x ∈ xs, x.id ∉ am.map Prod.fst) →
      ((xs.map (fun x => x.id)).Nodup) → (am'.map Prod.fst).Nodup) := by
  intro xs
  induction xs with
  | nil =>
    intro p am p' am' k h
    unfold combine_messages at h
    simp only [Except.ok.injEq, Prod.mk.injEq] at h
    obtain ⟨hp, ham, hk⟩ := h
    subst hp; subst ham; subst hk
    refine ⟨rfl, by simp, by simp, fun pr hpr => Or.inl hpr, fun a ha => Or.inl ha, ?_⟩
    intro h1 _ _
    exact h1
  | cons x rest ih =>
    intro p am p' am' k h
    unfold combine_messages at h
    by_cases hc : absorbCond m x
    · rw [if_pos hc] at h
      simp only [Bind.bind, Except.bind] at h
      rcases habs : absorb_step idMap x p with e | p1
      · rw [habs] at h; simp at h
      · simp only [habs] at h
        rcases hcm : combine_messages idMap m rest p1 (dset am x.id m.id) with
            e | ⟨p2, am2, k2⟩
        · rw [hcm] at h; simp at h
        · simp only [hcm] at h
          simp only [Except.ok.injEq, Prod.mk.injEq] at h
          obtain ⟨hp, ham, hk⟩ := h
          subst hp; subst ham; subst hk
          obtain ⟨i1, i2, i3, i4, i5, i6⟩ := ih p1 (dset am x.id m.id) p2 am2 k2 hcm
          have habsid := (absorb_step_spec idMap x p p1 habs).1
          refine ⟨by rw [i1, habsid], by simpa using Nat.add_le_add_right i2 1, ?_, ?_, ?_, ?_⟩
          · intro y hy
            rcases List.mem_cons.1 (by simpa using hy) with hy' | hy'
            · subst hy'; exact hc
            · exact i3 y (by simpa using hy')
          · intro pr hpr
            rcases i4 pr hpr with hpr' | hpr'
            · rcases mem_dset hpr' with hpr'' | hpr''
              · exact Or.inl hpr''
              · right; rw [hpr'']
            · exact Or.inr hpr'
          · intro a ha
            rcases i5 a ha with ha' | ha'
            · rcases keys_dset_sub ha' with ha'' | ha''
              · right; subst ha''; simp
              · exact Or.inl ha''
            · right
              simp only [List.take_succ_cons, List.map_cons, List.mem_cons]
              exact Or.inr ha'
          · intro h1 h2 h3
            have hxfresh : x.id ∉ am.map Prod.fst := h2 x (List.mem_cons_self x rest)
            have hdset : dset am x.id m.id = am ++ [(x.id, m.id)] :=
              dset_of_not_mem_keys _ hxfresh
            apply i6
            · rw [hdset, List.map_append, List.nodup_append]
              refine ⟨h1, by simp, ?_⟩
              intro a ha hb
              simp only [List.map_cons, List.map_nil, List.mem_singleton] at hb
              subst hb
              exact hxfresh ha
            · intro y hy
              rw [hdset, List.map_append]
              intro hmem
              rcases List.mem_append.1 hmem with hmem | hmem
              · exact h2 y (List.mem_cons_of_mem x hy) hmem
              · simp only [List.map_cons, List.map_nil, List.mem_singleton] at hmem
                have : y.id ≠ x.id := by
                  have hnd := h3
                  simp only [List.map_cons, List.nodup_cons] at hnd
                  intro heq
                  exact hnd.1 (heq ▸ List.mem_map_of_mem (fun z => z.id) hy)
                exact this hmem
            · have hnd := h3
              simp only [List.map_cons, List.nodup_cons] at hnd
              exact hnd.2
    · rw [if_neg hc] at h
      simp only [Except.ok.injEq, Prod.mk.injEq] at h
      obtain ⟨hp, ham, hk⟩ := h
      subst hp; subst ham; subst hk
      refine ⟨rfl, by simp, by simp, fun pr hpr => Or.inl hpr, fun a ha => Or.inl ha, ?_⟩
      intro h1 _ _
      exact h1

theorem stitch_loop_spec (idMap : List (String × String)) :
    ∀ (n : Nat) (l : List SourceMessage), l.length ≤ n →
    ∀ (am : List (Int × Int)) (out : List ParsedMessage) (am' : List (Int × Int)),
    stitch_loop idMap l am = .ok (out, am') →
    (∀ pr : Int × Int, pr ∈ am' → pr ∈ am ∨ ∃ p ∈ out, p.message_id = pr.2) ∧
    (∀ p ∈ out, p.message_id ∈ l.map (fun x => x.id)) ∧
    ((am.map Prod.fst).Nodup → (∀ x ∈ l, x.id ∉ am.map Prod.fst) →
      ((l.map (fun x => x.id)).Nodup) → (am'.map Prod.fst).Nodup) := by
  intro n
  induction n with
  | zero =>
    intro l hl am out am' h
    have : l = [] := List.eq_nil_of_length_eq_zero (Nat.le_zero.1 hl)
    subst this
    unfold stitch_loop at h
    simp only [Except.ok.injEq, Prod.mk.injEq] at h
    obtain ⟨hout, ham⟩ := h
    subst hout; subst ham
    exact ⟨fun pr hpr => Or.inl hpr, by simp, fun h1 _ _ => h1⟩
  | succ n ihn =>
    intro l hl am out am' h
    rcases l with _ | ⟨m, rest⟩
    · unfold stitch_loop at h
      simp only [Except.ok.injEq, Prod.mk.injEq] at h
      obtain ⟨hout, ham⟩ := h
      subst hout; subst ham
      exact ⟨fun pr hpr => Or.inl hpr, by simp, fun h1 _ _ => h1⟩
    · have hrest : rest.length ≤ n := by
        simp only [List.length_cons] at hl
        omega
      unfold stitch_loop at h
      by_cases hty : m.type_ = "message"
      · rw [if_pos hty] at h
        simp only [Bind.bind, Except.bind] at h
        rcases hcm : combine_messages idMap m rest (parse_message_data idMap m) am with
            e | ⟨p1, am1, k⟩
        · rw [hcm] at h; simp at h
        · simp only [hcm] at h
          rcases hst : stitch_loop idMap (rest.drop k) am1 with e | ⟨out2, am2⟩
          · rw [hst] at h; simp at h
          · simp only [hst] at h
            simp only [Except.ok.injEq, Prod.mk.injEq] at h
            obtain ⟨hout, ham⟩ := h
            subst hout; subst ham
            obtain ⟨c1, c2, c3, c4, c5, c6⟩ :=
              combine_messages_spec idMap m rest (parse_message_data idMap m) am p1 am1 k hcm
            have hdl : (rest.drop k).length ≤ n := by
              simp only [List.length_drop]
              omega
            obtain ⟨s1, s2, s3⟩ := ihn (rest.drop k) hdl am1 out2 am2 hst
            have hp1id : p1.message_id = m.id := by
              rw [c1]
              rfl
            refine ⟨?_, ?_, ?_⟩
            · intro pr hpr
              rcases s1 pr hpr with hpr' | ⟨p, hp, hpid⟩
              · rcases c4 pr hpr' with hpr'' | hpr''
                · exact Or.inl hpr''
                · right
                  exact ⟨p1, List.mem_cons_self _ _, by rw [hp1id, hpr'']⟩
              · exact Or.inr ⟨p, List.mem_cons_of_mem _ hp, hpid⟩
            · intro p hp
              rcases List.mem_cons.1 hp with hp' | hp'
              · subst hp'
                rw [hp1id]
                simp
              · have := s2 p hp'
                have hsub : (rest.drop k).map (fun x => x.id) ⊆
                    rest.map (fun x => x.id) := by
                  intro a ha
                  rw [List.map_drop] at ha
                  exact List.mem_of_mem_drop ha
                simp only [List.map_cons, List.mem_cons]
                exact Or.inr (hsub this)
            · intro h1 h2 h3
              simp only [List.map_cons, List.nodup_cons] at h3
              apply s3
              · exact c6 h1 (fun x hx => h2 x (List.mem_cons_of_mem _ hx)) h3.2
              · intro y hy hymem
                rcases c5 y.id hymem with hmem | hmem
                · exact h2 y (List.mem_cons_of_mem _ (List.mem_of_mem_drop hy)) hmem
                · have hnd : ((rest.map (fun x => x.id)).take k ++
                      (rest.map (fun x => x.id)).drop k).Nodup := by
                    rw [List.take_append_drop]
                    exact h3.2
                  rw [List.nodup_append] at hnd
                  have hyid : y.id ∈ (rest.map (fun x => x.id)).drop k := by
                    rw [← List.map_drop]
                    exact List.mem_map_of_mem (fun x => x.id) hy
                  have hymem' : y.id ∈ (rest.map (fun x => x.id)).take k := by
                    rw [← List.map_take]
                    exact hmem
                  exact absurd hyid (hnd.2.2 hymem')
              · rw [List.map_drop]
                exact h3.2.sublist (List.drop_sublist _ _)
      · rw [if_neg hty] at h
        obtain ⟨s1, s2, s3⟩ := ihn rest hrest am out am' h
        refine ⟨s1, ?_, ?_⟩
        · intro p hp
          simp only [List.map_cons, List.mem_cons]
          exact Or.inr (s2 p hp)
        · intro h1 h2 h3
          simp only [List.map_cons, List.nodup_cons] at h3
          exact s3 h1 (fun x hx => h2 x (List.mem_cons_of_mem _ hx)) h3.2

/-- C2: for sources with unique ids (the data model's input invariant),
once the first pass completes, every alias value is the `message_id` of
some emitted ParsedMessage, and the alias keys are pairwise distinct —
each absorbed id is recorded exactly once and never overwritten. -/
theorem c2_alias_map_invariant :
    ∀ (src : List SourceMessage) (out : List ParsedMessage)
      (amap : List (Int × Int)) (authors : List (String × AuthorInfo)),
    ((src.map (fun x => x.id)).Nodup) →
    stitch_messages src = .ok (out, amap, authors) →
    (∀ a c : Int, (a, c) ∈ amap → ∃ p ∈ out, p.message_id = c) ∧
    (amap.map Prod.fst).Nodup := by
  intro src out amap authors hnd h
  unfold stitch_messages at h
  have h' : Except.map (fun r => (r.1, r.2, (build_author_maps src).1))
      (stitch_loop (build_author_maps src).2.1 src []) =
      Except.ok (out, amap, authors) := h
  clear h
  rcases hsl : stitch_loop (build_author_maps src).2.1 src [] with e | ⟨out0, am0⟩
  · rw [hsl] at h'; simp [Except.map] at h'
  · rw [hsl] at h'
    simp only [Except.map, Except.ok.injEq, Prod.mk.injEq] at h'
    obtain ⟨hout, ham, _⟩ := h'
    subst hout; subst ham
    obtain ⟨s1, _, s3⟩ := stitch_loop_spec (build_author_maps src).2.1 src.length src
      (Nat.le_refl _) [] out0 am0 hsl
    constructor
    · intro a c hac
      rcases s1 (a, c) hac with habs | ⟨p, hp, hpid⟩
      · simp at habs
      · exact ⟨p, hp, hpid⟩
    · exact s3 (by simp) (by simp [dget]) hnd

def c2OutMsg : ParsedMessage :=
  ⟨1, "d", some "U1", some "a\n\nb", none, none, none, none, none, none, none⟩

/-- Witness for C2 on a two-message run: the single alias entry points at
the emitted canonical message and the key list is duplicate-free. -/
theorem c2_witness :
    ((([cexRun1, cexRun2] : List SourceMessage).map (fun x => x.id)).Nodup) ∧
    ((∀ a c : Int, (a, c) ∈ ([(2, 1)] : List (Int × Int)) →
      ∃ p ∈ [c2OutMsg], p.message_id = c) ∧
     ((([(2, 1)] : List (Int × Int)).map Prod.fst).Nodup)) :=
  ⟨by decide,
   c2_alias_map_invariant [cexRun1, cexRun2] [c2OutMsg] [(2, 1)]
     [("U1", ⟨none, "u1"⟩)] (by decide) (by
      simp [stitch_messages, stitch_loop, build_author_maps, build_author_step, mkMsg,
        cexRun1, cexRun2, combine_messages, absorbCond, absorb_step, attach_media,
        parse_message_data, combine_reactions, process_media,
        format_text_entities_to_markdown, truthyText, truthyOpt, uCompactId, dget,
        dset, message_media_keys, decStrAux, Bind.bind, Except.bind, Except.map,
        c2OutMsg]
      decide)⟩

/-! ## Run-absorption lemmas for the amended C1 -/

theorem absorbCond_swap (m x : SourceMessage) : absorbCond m x → absorbCond x m := by
  intro h
  obtain ⟨h1, h2, h3, h4, h5⟩ := h
  exact ⟨h1.symm, h2.symm, h3.symm, h5, h4⟩

theorem absorbCond_chain (m L r0 : SourceMessage) :
    absorbCond m L → absorbCond m r0 → absorbCond r0 L := by
  intro hL hr
  obtain ⟨a1, a2, a3, a4, a5⟩ := hL
  obtain ⟨b1, b2, b3, b4, b5⟩ := hr
  exact ⟨a1.trans b1.symm, a2.trans b2.symm, a3.trans b3.symm, a4, b4⟩

theorem render_ne_empty_truthy (t : TextVal) :
    format_text_entities_to_markdown t ≠ "" → truthyText t = true := by
  intro h
  rcases t with _ | s | es
  · exact absurd rfl h
  · simp only [truthyText]
    by_cases hs : s = ""
    · subst hs
      exact absurd rfl h
    · simp [hs]
  · simp only [truthyText]
    by_cases he : es.isEmpty
    · exact absurd (by simp [format_text_entities_to_markdown, he]) h
    · simp [he]

theorem getLast?_mem {α : Type} {l : List α} {a : α} (h : l.getLast? = some a) :
    a ∈ l := by
  have hx : a ∈ l.getLast? := by rw [h]; rfl
  obtain ⟨hne, heq⟩ := List.mem_getLast?_eq_getLast hx
  rw [heq]
  exact List.getLast_mem hne

theorem getLast?_suffix_or {α : Type} (l1 l2 : List α) (h : l2 ≠ []) :
    (l1 ++ l2).getLast? = l2.getLast? := by
  rw [List.getLast?_append]
  rcases hx : l2.getLast? with _ | y
  · exact absurd (List.getLast?_isSome.2 h) (by simp [hx])
  · rfl

theorem getLast?_drop_ne_nil {α : Type} (l : List α) (k : Nat) (h : l.drop k ≠ []) :
    (l.drop k).getLast? = l.getLast? := by
  conv_rhs => rw [← List.take_append_drop k l]
  rw [getLast?_suffix_or _ _ h]

theorem getLast?_cons_ne_nil {α : Type} (a : α) (l : List α) (h : l ≠ []) :
    (a :: l).getLast? = l.getLast? := by
  have : a :: l = [a] ++ l := rfl
  rw [this, getLast?_suffix_or _ _ h]

def blanksJoin (xs : List SourceMessage) : String :=
  String.join (xs.map (fun x => "\n\n" ++ format_text_entities_to_markdown x.text))

/-- The strings of a run joined by a blank line (double newline). -/
def joinBlank : List String → String
  | [] => ""
  | [a] => a
  | a :: b :: rest => a ++ "\n\n" ++ joinBlank (b :: rest)

theorem string_foldl_append :
    ∀ (l : List String) (a : String),
    l.foldl (fun r s => r ++ s) a = a ++ l.foldl (fun r s => r ++ s) "" := by
  intro l
  induction l with
  | nil => intro a; exact (String.append_empty a).symm
  | cons b t ih =>
    intro a
    simp only [List.foldl_cons]
    rw [ih (a ++ b), ih ("" ++ b), String.empty_append, String.append_assoc]

theorem string_join_cons (a : String) (l : List String) :
    String.join (a :: l) = a ++ String.join l := by
  simp only [String.join, List.foldl_cons, String.empty_append]
  exact string_foldl_append l a

theorem joinBlank_cons (a : String) (l : List String) :
    joinBlank (a :: l) = a ++ String.join (l.map (fun s => "\n\n" ++ s)) := by
  induction l generalizing a with
  | nil => exact (String.append_empty a).symm
  | cons b t ih =>
    show a ++ "\n\n" ++ joinBlank (b :: t) = _
    rw [ih b]
    simp only [List.map_cons]
    rw [string_join_cons]
    rw [String.append_assoc, String.append_assoc]

theorem joinBlank_run (r0 : SourceMessage) (rs : List SourceMessage) :
    joinBlank ((r0 :: rs).map (fun x => format_text_entities_to_markdown x.text)) =
    format_text_entities_to_markdown r0.text ++ blanksJoin rs := by
  simp only [List.map_cons]
  rw [joinBlank_cons]
  unfold blanksJoin
  rw [List.map_map]
  rfl

theorem combine_messages_split (idMap : List (String × String)) (m : SourceMessage) :
    ∀ (xs ys : List SourceMessage) (p : ParsedMessage) (am : List (Int × Int)),
    ((∀ x ∈ xs, absorbCond m x) → ∀ y ∈ ys.head?, ¬ absorbCond m y) →
    combine_messages idMap m (xs ++ ys) p am = combine_messages idMap m xs p am := by
  intro xs
  induction xs with
  | nil =>
    intro ys p am hb
    rcases ys with _ | ⟨y, ys'⟩
    · rfl
    · have hy : ¬ absorbCond m y := hb (by simp) y rfl
      simp only [List.nil_append]
      unfold combine_messages
      rw [if_neg hy]
  | cons x rest ih =>
    intro ys p am hb
    simp only [List.cons_append]
    unfold combine_messages
    by_cases hc : absorbCond m x
    · rw [if_pos hc, if_pos hc]
      simp only [Bind.bind, Except.bind]
      rcases habs : absorb_step idMap x p with e | p1
      · rfl
      · dsimp only
        rw [ih ys p1 (dset am x.id m.id) (fun hchain => hb (by
          intro z hz
          rcases List.mem_cons.1 hz with hz' | hz'
          · subst hz'; exact hc
          · exact hchain z hz'))]
    · rw [if_neg hc, if_neg hc]

theorem combine_messages_all (idMap : List (String × String)) (m : SourceMessage) :
    ∀ (xs : List SourceMessage) (p : ParsedMessage) (am : List (Int × Int))
      (p' : ParsedMessage) (am' : List (Int × Int)) (k : Nat),
    (∀ x ∈ xs, absorbCond m x) →
    (∀ x ∈ xs, format_text_entities_to_markdown x.text ≠ "") →
    combine_messages idMap m xs p am = .ok (p', am', k) →
    k = xs.length ∧
    (∀ t : String, p.content_text = some t →
      p'.content_text = some (t ++ blanksJoin xs)) := by
  intro xs
  induction xs with
  | nil =>
    intro p am p' am' k _ _ h
    unfold combine_messages at h
    simp only [Except.ok.injEq, Prod.mk.injEq] at h
    obtain ⟨hp, _, hk⟩ := h
    subst hp; subst hk
    refine ⟨rfl, ?_⟩
    intro t ht
    rw [ht]
    unfold blanksJoin
    simp only [List.map_nil]
    rw [show String.join [] = "" from rfl, String.append_empty]
  | cons x rest ih =>
    intro p am p' am' k hchain hrender h
    unfold combine_messages at h
    rw [if_pos (hchain x (List.mem_cons_self x rest))] at h
    simp only [Bind.bind, Except.bind] at h
    rcases habs : absorb_step idMap x p with e | p1
    · rw [habs] at h; simp at h
    · simp only [habs] at h
      rcases hcm : combine_messages idMap m rest p1 (dset am x.id m.id) with
          e | ⟨p2, am2, k2⟩
      · rw [hcm] at h; simp at h
      · simp only [hcm] at h
        simp only [Except.ok.injEq, Prod.mk.injEq] at h
        obtain ⟨hp, _, hk⟩ := h
        subst hp; subst hk
        obtain ⟨i1, i2⟩ := ih p1 (dset am x.id m.id) p2 am2 k2
          (fun z hz => hchain z (List.mem_cons_of_mem x hz))
          (fun z hz => hrender z (List.mem_cons_of_mem x hz)) hcm
        refine ⟨by rw [i1]; rfl, ?_⟩
        intro t ht
        have hxr := hrender x (List.mem_cons_self x rest)
        have hp1t : p1.content_text =
            some (t ++ "\n\n" ++ format_text_entities_to_markdown x.text) :=
          (absorb_step_spec idMap x p p1 habs).2 t ht hxr
        have := i2 _ hp1t
        rw [this]
        have hexp : blanksJoin (x :: rest) =
            ("\n\n" ++ format_text_entities_to_markdown x.text) ++ blanksJoin rest := by
          unfold blanksJoin
          simp only [List.map_cons]
          rw [string_join_cons]
        rw [hexp]
        congr 1
        simp only [String.append_assoc]

theorem stitch_loop_reach (idMap : List (String × String)) (r0 : SourceMessage)
    (rest2 : List SourceMessage) :
    ∀ (n : Nat) (pre : List SourceMessage), pre.length ≤ n →
    (pre = [] ∨ ∃ L, pre.getLast? = some L ∧ ¬ absorbCond r0 L) →
    ∀ (am : List (Int × Int)) (out : List ParsedMessage) (amF : List (Int × Int)),
    stitch_loop idMap (pre ++ r0 :: rest2) am = .ok (out, amF) →
    ∃ (out1 out2 : List ParsedMessage) (am1 : List (Int × Int)),
      out = out1 ++ out2 ∧
      stitch_loop idMap (r0 :: rest2) am1 = .ok (out2, amF) ∧
      (∀ p ∈ out1, p.message_id ∈ pre.map (fun x => x.id)) := by
  intro n
  induction n with
  | zero =>
    intro pre hl hb am out amF h
    have hpre : pre = [] := List.eq_nil_of_length_eq_zero (Nat.le_zero.1 hl)
    subst hpre
    rw [List.nil_append] at h
    exact ⟨[], out, am, rfl, h, by simp⟩
  | succ n ihn =>
    intro pre hl hb am out amF h
    rcases pre with _ | ⟨m, pre2⟩
    · rw [List.nil_append] at h
      exact ⟨[], out, am, rfl, h, by simp⟩
    · rcases hb with hb | ⟨L, hL, hnL⟩
      · exact absurd hb (by simp)
      · have hl2 : pre2.length ≤ n := by
          simp only [List.length_cons] at hl
          omega
        simp only [List.cons_append] at h
        unfold stitch_loop at h
        by_cases hty : m.type_ = "message"
        · rw [if_pos hty] at h
          simp only [Bind.bind, Except.bind] at h
          have hsplit : combine_messages idMap m (pre2 ++ r0 :: rest2)
              (parse_message_data idMap m) am =
              combine_messages idMap m pre2 (parse_message_data idMap m) am := by
            apply combine_messages_split
            intro hchain y hy
            have hy' : r0 = y := by
              simpa using hy
            subst hy'
            intro habs
            rcases pre2 with _ | ⟨z, zs⟩
            · have hLm : L = m := by
                have h0 : ([m] : List SourceMessage).getLast? = some m := rfl
                rw [h0] at hL
                injection hL with h1
                exact h1.symm
              rw [hLm] at hnL
              exact hnL (absorbCond_swap m r0 habs)
            · have hne : (z :: zs) ≠ [] := by simp
              have hLlast : (z :: zs).getLast? = some L := by
                rw [← getLast?_cons_ne_nil m (z :: zs) hne]
                exact hL
              have hLmem : L ∈ (z :: zs) := getLast?_mem hLlast
              exact hnL (absorbCond_chain m L r0 (hchain L hLmem) habs)
          rw [hsplit] at h
          rcases hcm : combine_messages idMap m pre2 (parse_message_data idMap m) am with
              e | ⟨p1, am1', k⟩
          · rw [hcm] at h; simp at h
          · simp only [hcm] at h
            obtain ⟨c1, c2, c3, c4, c5, c6⟩ :=
              combine_messages_spec idMap m pre2 (parse_message_data idMap m) am p1 am1' k hcm
            have hdrop : (pre2 ++ r0 :: rest2).drop k = pre2.drop k ++ r0 :: rest2 := by
              rw [List.drop_append_eq_append_drop]
              have hz : k - pre2.length = 0 := by omega
              rw [hz, List.drop_zero]
            rw [hdrop] at h
            rcases hst : stitch_loop idMap (pre2.drop k ++ r0 :: rest2) am1' with
                e | ⟨out2t, am2t⟩
            · rw [hst] at h; simp at h
            · simp only [hst] at h
              simp only [Except.ok.injEq, Prod.mk.injEq] at h
              obtain ⟨hout, ham⟩ := h
              subst hout; subst ham
              have hdl : (pre2.drop k).length ≤ n := by
                simp only [List.length_drop]
                omega
              have hbdrop : pre2.drop k = [] ∨
                  ∃ L', (pre2.drop k).getLast? = some L' ∧ ¬ absorbCond r0 L' := by
                by_cases hdn : pre2.drop k = []
                · exact Or.inl hdn
                · right
                  refine ⟨L, ?_, hnL⟩
                  rw [getLast?_drop_ne_nil pre2 k hdn]
                  have hpne : pre2 ≠ [] := by
                    intro hh
                    subst hh
                    simp at hdn
                  rw [← getLast?_cons_ne_nil m pre2 hpne]
                  exact hL
              obtain ⟨o1, o2, am1, ho, hs2, hids⟩ :=
                ihn (pre2.drop k) hdl hbdrop am1' out2t am2t hst
              refine ⟨p1 :: o1, o2, am1, by rw [ho]; rfl, hs2, ?_⟩
              intro p hp
              rcases List.mem_cons.1 hp with hp' | hp'
              · have hpm : p.message_id = m.id := by rw [hp', c1]; rfl
                rw [hpm]
                simp
              · have := hids p hp'
                have hsub : (pre2.drop k).map (fun x => x.id) ⊆
                    pre2.map (fun x => x.id) := by
                  intro a ha
                  rw [List.map_drop] at ha
                  exact List.mem_of_mem_drop ha
                simp only [List.map_cons, List.mem_cons]
                exact Or.inr (hsub this)
        · rw [if_neg hty] at h
          have hb2 : pre2 = [] ∨
              ∃ L', pre2.getLast? = some L' ∧ ¬ absorbCond r0 L' := by
            by_cases hdn : pre2 = []
            · exact Or.inl hdn
            · right
              refine ⟨L, ?_, hnL⟩
              rw [← getLast?_cons_ne_nil m pre2 hdn]
              exact hL
          obtain ⟨o1, o2, am1, ho, hs2, hids⟩ := ihn pre2 hl2 hb2 am out amF h
          refine ⟨o1, o2, am1, ho, hs2, ?_⟩
          intro p hp
          simp only [List.map_cons, List.mem_cons]
          exact Or.inr (hids p hp)

/-- C1 amended.  For a maximal absorption run: `rs` non-empty message
entries following `r0`, all sharing `from_id`/`date_unixtime`/
`forwarded_from` with `r0`, every member rendering non-empty text, no
absorption chain reaching `r0` from `pre` (the entry just before the run,
if any, fails the absorption condition against `r0`), and the entry just
after the run, if any — of any type — failing the absorption condition:
the Stitcher emits exactly one ParsedMessage for the run, whose text is
the members' rendered texts joined by a blank line and whose message_id
is the first member's id. -/
theorem c1_amended :
    ∀ (pre rs post : List SourceMessage) (r0 : SourceMessage)
      (out : List ParsedMessage) (amap : List (Int × Int))
      (authors : List (String × AuthorInfo)),
    rs ≠ [] →
    r0.type_ = "message" →
    (∀ x ∈ rs, x.type_ = "message") →
    (∀ x ∈ rs, x.from_id = r0.from_id ∧ x.date_unixtime = r0.date_unixtime ∧
      x.forwarded_from.join = r0.forwarded_from.join) →
    (∀ x ∈ r0 :: rs, format_text_entities_to_markdown x.text ≠ "") →
    (pre = [] ∨ ∃ L, pre.getLast? = some L ∧ ¬ absorbCond r0 L) →
    (∀ y ∈ post.head?, ¬ absorbCond r0 y) →
    (((pre ++ r0 :: rs ++ post).map (fun x => x.id)).Nodup) →
    stitch_messages (pre ++ r0 :: rs ++ post) = .ok (out, amap, authors) →
    ∃ (out1 out2 : List ParsedMessage) (p : ParsedMessage),
      out = out1 ++ p :: out2 ∧
      p.message_id = r0.id ∧
      p.content_text = some (joinBlank ((r0 :: rs).map
        (fun x => format_text_entities_to_markdown x.text))) ∧
      (out.filter (fun q => q.message_id == r0.id)).length = 1 := by
  intro pre rs post r0 out amap authors hrs hty0 _ hfields hrender hprev hpost hnd h
  have hform : (pre ++ r0 :: rs ++ post) = pre ++ r0 :: (rs ++ post) := by
    simp [List.append_assoc]
  rw [hform] at hnd h
  unfold stitch_messages at h
  have h' : Except.map
      (fun r => (r.1, r.2, (build_author_maps (pre ++ r0 :: (rs ++ post))).1))
      (stitch_loop (build_author_maps (pre ++ r0 :: (rs ++ post))).2.1
        (pre ++ r0 :: (rs ++ post)) []) =
      Except.ok (out, amap, authors) := h
  clear h
  rcases hsl : stitch_loop (build_author_maps (pre ++ r0 :: (rs ++ post))).2.1
      (pre ++ r0 :: (rs ++ post)) [] with e | ⟨out0, am0⟩
  · rw [hsl] at h'; simp [Except.map] at h'
  · rw [hsl] at h'
    simp only [Except.map, Except.ok.injEq, Prod.mk.injEq] at h'
    obtain ⟨hout0, ham0, _⟩ := h'
    subst hout0; subst ham0
    obtain ⟨out1, out2, am1, hsplit0, hs2, hids1⟩ :=
      stitch_loop_reach (build_author_maps (pre ++ r0 :: (rs ++ post))).2.1 r0
        (rs ++ post) pre.length pre (Nat.le_refl _) hprev [] out0 am0 hsl
    subst hsplit0
    unfold stitch_loop at hs2
    rw [if_pos hty0] at hs2
    simp only [Bind.bind, Except.bind] at hs2
    have habsorb : ∀ x ∈ rs, absorbCond r0 x := by
      intro x hx
      obtain ⟨f1, f2, f3⟩ := hfields x hx
      exact ⟨f1, f2, f3,
        render_ne_empty_truthy _ (hrender x (List.mem_cons_of_mem r0 hx)),
        render_ne_empty_truthy _ (hrender r0 (List.mem_cons_self r0 rs))⟩
    have hsplit : combine_messages
        (build_author_maps (pre ++ r0 :: (rs ++ post))).2.1 r0 (rs ++ post)
        (parse_message_data (build_author_maps (pre ++ r0 :: (rs ++ post))).2.1 r0) am1 =
        combine_messages (build_author_maps (pre ++ r0 :: (rs ++ post))).2.1 r0 rs
        (parse_message_data (build_author_maps (pre ++ r0 :: (rs ++ post))).2.1 r0) am1 :=
      combine_messages_split _ r0 rs post _ am1 (fun _ y hy => hpost y hy)
    rw [hsplit] at hs2
    rcases hcm : combine_messages (build_author_maps (pre ++ r0 :: (rs ++ post))).2.1 r0
        rs (parse_message_data (build_author_maps (pre ++ r0 :: (rs ++ post))).2.1 r0)
        am1 with e | ⟨p1, am1', k⟩
    · rw [hcm] at hs2; simp at hs2
    · simp only [hcm] at hs2
      obtain ⟨hk, htext⟩ := combine_messages_all _ r0 rs _ am1 p1 am1' k habsorb
        (fun x hx => hrender x (List.mem_cons_of_mem r0 hx)) hcm
      have hp1id : p1.message_id = r0.id := by
        rw [(combine_messages_spec _ r0 rs _ am1 p1 am1' k hcm).1]
        rfl
      have hparse_text : (parse_message_data
          (build_author_maps (pre ++ r0 :: (rs ++ post))).2.1 r0).content_text =
          some (format_text_entities_to_markdown r0.text) := by
        have ht := render_ne_empty_truthy r0.text (hrender r0 (List.mem_cons_self r0 rs))
        simp [parse_message_data, ht]
      have hp1text : p1.content_text = some (joinBlank ((r0 :: rs).map
          (fun x => format_text_entities_to_markdown x.text))) := by
        rw [joinBlank_run]
        exact htext _ hparse_text
      subst hk
      have hdrop : (rs ++ post).drop rs.length = post := List.drop_left rs post
      rw [hdrop] at hs2
      rcases hpst : stitch_loop (build_author_maps (pre ++ r0 :: (rs ++ post))).2.1
          post am1' with e | ⟨out3, am3⟩
      · rw [hpst] at hs2; simp at hs2
      · simp only [hpst] at hs2
        simp only [Except.ok.injEq, Prod.mk.injEq] at hs2
        obtain ⟨hout2, ham3⟩ := hs2
        subst hout2
        obtain ⟨_, s2, _⟩ := stitch_loop_spec
          (build_author_maps (pre ++ r0 :: (rs ++ post))).2.1 post.length post
          (Nat.le_refl _) am1' out3 am3 hpst
        refine ⟨out1, out3, p1, rfl, hp1id, hp1text, ?_⟩
        have hndparts : r0.id ∉ pre.map (fun x => x.id) ∧
            r0.id ∉ post.map (fun x => x.id) := by
          rw [List.map_append] at hnd
          rw [List.nodup_append] at hnd
          obtain ⟨_, hnd2, hdisj⟩ := hnd
          constructor
          · intro hmem
            exact hdisj hmem (by simp)
          · simp only [List.map_cons, List.nodup_cons] at hnd2
            intro hmem
            apply hnd2.1
            rw [List.map_append, List.mem_append]
            exact Or.inr hmem
        have hf1 : out1.filter (fun q => q.message_id == r0.id) = [] := by
          rw [List.filter_eq_nil_iff]
          intro q hq
          simp only [beq_iff_eq]
          intro heq
          exact hndparts.1 (heq ▸ hids1 q hq)
        have hf3 : out3.filter (fun q => q.message_id == r0.id) = [] := by
          rw [List.filter_eq_nil_iff]
          intro q hq
          simp only [beq_iff_eq]
          intro heq
          exact hndparts.2 (heq ▸ s2 q hq)
        rw [List.filter_append, hf1]
        rw [List.filter_cons_of_pos (by simp [hp1id])]
        rw [hf3]
        rfl

/-- Witness for the amended C1: the two-message run `[cexRun1, cexRun2]`
with empty context stitches to exactly one ParsedMessage with the joined
text and the first member's id. -/
theorem c1_witness :
    (([cexRun2] : List SourceMessage) ≠ []) ∧
    (∀ x ∈ ([cexRun1, cexRun2] : List SourceMessage),
      format_text_entities_to_markdown x.text ≠ "") ∧
    (∃ (out1 out2 : List ParsedMessage) (p : ParsedMessage),
      ([c2OutMsg] : List ParsedMessage) = out1 ++ p :: out2 ∧
      p.message_id = cexRun1.id ∧
      p.content_text = some (joinBlank (([cexRun1, cexRun2] :
        List SourceMessage).map (fun x => format_text_entities_to_markdown x.text))) ∧
      (([c2OutMsg] : List ParsedMessage).filter
        (fun q => q.message_id == cexRun1.id)).length = 1) :=
  ⟨by decide, by decide,
   c1_amended [] [cexRun2] [] cexRun1 [c2OutMsg] [(2, 1)] [("U1", ⟨none, "u1"⟩)]
     (by decide) rfl (by decide) (by decide) (by decide) (Or.inl rfl) (by simp)
     (by decide) (by
      simp [stitch_messages, stitch_loop, build_author_maps, build_author_step, mkMsg,
        cexRun1, cexRun2, combine_messages, absorbCond, absorb_step, attach_media,
        parse_message_data, combine_reactions, process_media,
        format_text_entities_to_markdown, truthyText, truthyOpt, uCompactId, dget,
        dset, message_media_keys, decStrAux, Bind.bind, Except.bind, Except.map,
        c2OutMsg]
      decide)⟩

/-- Witness for the amended C6 at a typeless-shape custom emoji
reaction. -/
theorem c6_witness :
    (truthyOpt cexCustomNoShape.emoji = none ∧
      truthyOpt cexCustomNoShape.document_id = none) ∧
    (dget (normalize_reaction [] cexCustomNoShape) cexCustomNoShape.type_ =
        some (RVal.s "⭐️") ∧
      combine_reactions cexCustomMsg (some []) [] =
        .ok (some [combine_new_entry cexCustomNoShape]) ∧
      dget (combine_new_entry cexCustomNoShape) cexCustomNoShape.type_ =
        some RVal.null) :=
  ⟨⟨rfl, rfl⟩, c6_amended [] cexCustomNoShape cexCustomMsg rfl rfl rfl rfl⟩
